import Mathlib

/-!
Shallow embedding of `scripts/send_batch.py` (record filtering and idempotent
dispatch engine) and verification of the frozen claims about it.

Modelling conventions:
* Python strings are `List Char` (ASCII-level model of `str`);
* Python's loosely-typed field values are `PyValue`;
* exact rationals are `PFloat` (numerator/positive denominator pair);
  a Python `float` value is `PyFloat64` (an exactly-represented finite
  double, an infinity, or NaN), and `float()` conversions round exactly
  to the nearest binary64 via `roundFloat`;
* `datetime.date` is `PyDate`; `datetime.fromtimestamp(ts).date()` is
  modelled in UTC via days-since-epoch and the standard civil-from-days
  algorithm, returning `none` where CPython raises
  `ValueError`/`OSError` (date outside years 1..9999);
* functions that can raise in Python return `Option`/`Except` values.
-/

/-! ### Character and list-of-char utilities -/

/-- The ten decimal digit characters, as a total function with a
non-digit placeholder for out-of-range input. -/
def d2c : Nat → Char
  | 0 => '0' | 1 => '1' | 2 => '2' | 3 => '3' | 4 => '4'
  | 5 => '5' | 6 => '6' | 7 => '7' | 8 => '8' | 9 => '9'
  | _ => '?'

/-- Digit value of a character, `10` when not an ASCII digit. -/
def c2d (c : Char) : Nat :=
  if '0' ≤ c ∧ c ≤ '9' then c.toNat - 48 else 10

/-- ASCII decimal digit test (model of the character class used by
`str.isdigit` and `strptime`; non-ASCII unicode digits are not modelled). -/
def isDigitC (c : Char) : Bool := decide ('0' ≤ c ∧ c ≤ '9')

/-- Whitespace characters recognised by Python's `str.strip()`. -/
def isSpaceC (c : Char) : Bool :=
  c = ' ' || c = '\t' || c = '\n' || c = '\r' || c = '\x0b' || c = '\x0c'

/-- Decimal value of a digit string (fold, most-significant first). -/
def toNatC (l : List Char) : Nat :=
  l.foldl (fun a c => a * 10 + c2d c) 0

/-- Digits of a natural number, most significant first (fuel-based so that
it reduces definitionally). -/
def natCharsAux : Nat → Nat → List Char
  | 0, _ => []
  | fuel + 1, n => if n < 10 then [d2c n] else natCharsAux fuel (n / 10) ++ [d2c (n % 10)]

/-- Decimal representation of a natural number. -/
def natChars (n : Nat) : List Char := natCharsAux (n + 1) n

/-- Decimal representation of an integer (model of Python `str(int)`). -/
def intChars (n : Int) : List Char :=
  if n < 0 then '-' :: natChars (-n).toNat else natChars n.toNat

/-- Split a character list on a separator character; model of Python
`str.split(sep)` for a one-character separator (no maxsplit). -/
def splitOnC (sep : Char) : List Char → List (List Char)
  | [] => [[]]
  | c :: rest =>
    let r := splitOnC sep rest
    if c = sep then [] :: r
    else
      match r with
      | h :: t => (c :: h) :: t
      | [] => [[c]]

/-- Model of Python `str.strip()`: drop whitespace from both ends. -/
def stripC (l : List Char) : List Char :=
  ((l.dropWhile isSpaceC).reverse.dropWhile isSpaceC).reverse

/-- Model of Python `str.lower()` (ASCII case folding). -/
def lowerC (l : List Char) : List Char := l.map Char.toLower

/-- Boolean list-prefix test. -/
def prefixOfL : List Char → List Char → Bool
  | [], _ => true
  | _ :: _, [] => false
  | a :: as, b :: bs => a = b && prefixOfL as bs

/-- Boolean contiguous-substring test; model of Python `needle in haystack`
on strings. -/
def subOfL (pat : List Char) : List Char → Bool
  | [] => prefixOfL pat []
  | c :: rest => prefixOfL pat (c :: rest) || subOfL pat rest

/-- Parse a group of at most `maxLen` digit characters, as the regex
fragments used by `strptime` directives do. -/
def readNum (maxLen : Nat) (l : List Char) : Option Nat :=
  if l ≠ [] ∧ l.length ≤ maxLen ∧ l.all isDigitC then some (toNatC l) else none

/-- Parse the `%Y` group: CPython's `_strptime` uses a four-digit
regex for `%Y`, so exactly four digit characters are required. -/
def readYear (l : List Char) : Option Nat :=
  if l.length = 4 ∧ l.all isDigitC then some (toNatC l) else none

/-- Replace every non-overlapping occurrence of `pat` in `s` by `repl`
left-to-right; model of Python `str.replace` (fuel-based). -/
def replaceAllAux (pat repl : List Char) : Nat → List Char → List Char
  | _, [] => []
  | 0, l => l
  | fuel + 1, c :: rest =>
    if prefixOfL pat (c :: rest) then
      repl ++ replaceAllAux pat repl fuel (List.drop (pat.length - 1) rest)
    else
      c :: replaceAllAux pat repl fuel rest

/-- Model of Python `str.replace(pat, repl)` for a non-empty `pat`. -/
def replaceAll (pat repl s : List Char) : List Char :=
  replaceAllAux pat repl s.length s

/-! ### Calendar dates -/

/-- Model of `datetime.date`: a calendar date in the proleptic Gregorian
calendar, as used by Python `datetime` (years 1..9999 are the valid range). -/
structure PyDate where
  year : Nat
  month : Nat
  day : Nat
deriving DecidableEq

/-- Gregorian leap-year rule (as implemented by Python `datetime`). -/
def isLeap (y : Nat) : Bool := y % 4 = 0 && (y % 100 ≠ 0 || y % 400 = 0)

/-- Number of days in a month. -/
def daysInMonth (y m : Nat) : Nat :=
  if m = 2 then (if isLeap y then 29 else 28)
  else if m = 4 ∨ m = 6 ∨ m = 9 ∨ m = 11 then 30
  else 31

/-- A (year, month, day) triple representable as a Python `datetime.date`. -/
def validYMD (y m d : Nat) : Prop :=
  1 ≤ y ∧ y ≤ 9999 ∧ 1 ≤ m ∧ m ≤ 12 ∧ 1 ≤ d ∧ d ≤ daysInMonth y m

instance (y m d : Nat) : Decidable (validYMD y m d) := by
  unfold validYMD; infer_instance

/-- Strict calendar order on dates (model of Python `date` comparison). -/
def dateLt (a b : PyDate) : Bool :=
  a.year < b.year ||
    (a.year = b.year && (a.month < b.month ||
      (a.month = b.month && a.day < b.day)))

/-- Non-strict calendar order on dates. -/
def dateLe (a b : PyDate) : Bool := dateLt a b || a = b

/-- Civil date from days since 1970-01-01 (standard era-based algorithm;
all divisions have positive divisors, where Lean `Int` division rounds
down, matching the intended floor semantics). -/
def civilFromDays (days : Int) : Int × Int × Int :=
  let z := days + 719468
  let era := z / 146097
  let doe := z - era * 146097
  let yoe := (doe - doe / 1460 + doe / 36524 - doe / 146096) / 365
  let y := yoe + era * 400
  let doy := doe - (365 * yoe + yoe / 4 - yoe / 100)
  let mp := (5 * doy + 2) / 153
  let d := doy - (153 * mp + 2) / 5 + 1
  let m := mp + (if mp < 10 then 3 else -9)
  (y + (if m ≤ 2 then 1 else 0), m, d)

/-! ### Exact model of Python floats -/

/-- An exact rational: numerator over a positive denominator. Used both
for exact intermediate values (decimal literals before rounding, the
timestamp arithmetic of `parse_date_value`) and for the exact value of a
finite binary64 double. -/
structure PFloat where
  num : Int
  den : Nat
deriving DecidableEq

/-- Embed an integer. -/
def pfOfInt (n : Int) : PFloat := ⟨n, 1⟩

/-- Exact comparison `a < b` (denominators are positive by construction). -/
def pfLt (a b : PFloat) : Bool := a.num * b.den < b.num * a.den

/-- Exact comparison `a ≤ b`. -/
def pfLe (a b : PFloat) : Bool := a.num * b.den ≤ b.num * a.den

/-- The test `value > 1e10` from `parse_date_value` (exact). -/
def pfGtTenBillion (a : PFloat) : Bool := 10000000000 * (a.den : Int) < a.num

/-- The millisecond rescaling `value / 1000` from `parse_date_value`. -/
def pfDivThousand (a : PFloat) : PFloat := ⟨a.num, a.den * 1000⟩

/-- Days since the Unix epoch of a timestamp in seconds:
`floor(ts / 86400)` (UTC model of the local-time conversion). -/
def pfEpochDays (ts : PFloat) : Int := ts.num / ((ts.den : Int) * 86400)

/-- Model of `datetime.fromtimestamp(ts).date()` under UTC restricted to
the outcomes the callers catch: `none` models the `ValueError`/`OSError`
raised when the result falls outside the `datetime` year range 1..9999
(or C `localtime` overflows). The separate, uncaught `OverflowError` for
a timestamp whose floored seconds exceed the platform `time_t` range is
modelled by `pfTimeTOverflow` and the exception-aware
`parse_date_value_exc`. -/
def fromtimestampDate (ts : PFloat) : Option PyDate :=
  let z := pfEpochDays ts
  if -719162 ≤ z ∧ z ≤ 2932896 then
    let c := civilFromDays z
    some ⟨c.1.toNat, c.2.1.toNat, c.2.2.toNat⟩
  else none

/-! ### Python values -/

/-- Loosely-typed field values as delivered by the Grist JSON layer
(plus `datetime` values, which `parse_date_value` also accepts). -/
inductive PyValue where
  | none
  | bool (b : Bool)
  | int (n : Int)
  | float (f : PFloat)
  | str (s : List Char)
  | datetime (d : PyDate)
deriving DecidableEq

/-- Python truthiness (`bool(value)`). -/
def pyTruthy : PyValue → Bool
  | .none => false
  | .bool b => b
  | .int n => n ≠ 0
  | .float f => f.num ≠ 0
  | .str s => !s.isEmpty
  | .datetime _ => true

/-- Approximate decimal rendering of a `PFloat`, used only to model
`str(float)`; no verified claim depends on its exact form. -/
def pfRepr (f : PFloat) : List Char :=
  if f.den = 1 then intChars f.num ++ ['.', '0']
  else intChars f.num ++ '/' :: natChars f.den

/-- Model of Python `str(value)`. -/
def pyStr : PyValue → List Char
  | .none => "None".toList
  | .bool true => "True".toList
  | .bool false => "False".toList
  | .int n => intChars n
  | .float f => pfRepr f
  | .str s => s
  | .datetime d =>
    natChars d.year ++ '-' :: natChars d.month ++ '-' :: natChars d.day

/-! ### IEEE-754 binary64 model

`float()` conversions round to the nearest double (ties to even). The
rounding below is exact: a value is `finite m` with `m` the exact
rational value of the resulting double, `inf`, or `nan`. -/

/-- The value of a CPython `float`: a (representable) finite double,
a signed infinity, or NaN. -/
inductive PyFloat64 where
  | finite (f : PFloat)
  | inf (neg : Bool)
  | nan
deriving DecidableEq

/-- Round a positive rational `a / b` to the nearest integer, ties to
even. -/
def roundNE (a b : Nat) : Nat :=
  let q := a / b
  let r := a % b
  if 2 * r < b then q
  else if b < 2 * r then q + 1
  else if q % 2 = 0 then q else q + 1

/-- Round `n / d` divided by `2 ^ e` to the nearest integer (ties to
even). -/
def roundAtE (n d : Nat) (e : Int) : Nat :=
  if 0 ≤ e then roundNE n (d * 2 ^ e.toNat) else roundNE (n * 2 ^ (-e).toNat) d

/-- Exact comparison `2 ^ k ≤ n / d`. -/
def geTwoPow (n d : Nat) (k : Int) : Bool :=
  if 0 ≤ k then d * 2 ^ k.toNat ≤ n else d ≤ n * 2 ^ (-k).toNat

/-- Raise the exponent while the value is at or above `2 ^ (e + 53)`. -/
def binadeUp : Nat → Nat → Nat → Int → Int
  | 0, _, _, e => e
  | fuel + 1, n, d, e =>
    if geTwoPow n d (e + 53) then binadeUp fuel n d (e + 1) else e

/-- Lower the exponent while the value is below `2 ^ (e + 52)`, not
descending past the subnormal floor `-1074`. -/
def binadeDown : Nat → Nat → Nat → Int → Int
  | 0, _, _, e => e
  | fuel + 1, n, d, e =>
    if ¬ geTwoPow n d (e + 52) ∧ -1074 < e then binadeDown fuel n d (e - 1)
    else e

/-- Find the binade exponent by exact comparisons, then round the
mantissa once; a round-up to exactly `2 ^ 53` carries into the next
binade. -/
def roundNorm (fuel n d : Nat) (e : Int) : Nat × Int :=
  let e2 := binadeDown fuel n d (binadeUp fuel n d e)
  let m := roundAtE n d e2
  if m = 2 ^ 53 then (2 ^ 52, e2 + 1) else (m, e2)

/-- Reduce `m * 2 ^ e` to lowest terms: shift factors of two of `m`
into a negative exponent. -/
def dyadicReduce : Nat → Nat → Int → Nat × Int
  | 0, m, e => (m, e)
  | fuel + 1, m, e =>
    if e < 0 ∧ m % 2 = 0 ∧ m ≠ 0 then dyadicReduce fuel (m / 2) (e + 1)
    else (m, e)

/-- Correctly-rounded conversion of an exact rational to binary64
(round to nearest, ties to even, gradual underflow, overflow to
infinity); the finite result is in lowest terms, as
`float.as_integer_ratio` reports it. -/
def roundFloat (q : PFloat) : PyFloat64 :=
  if q.num = 0 then .finite ⟨0, 1⟩
  else
    let neg := decide (q.num < 0)
    let n := q.num.natAbs
    let e0 : Int := (Nat.log2 n : Int) - (Nat.log2 q.den : Int) - 52
    let e1 := max e0 (-1074)
    let me := roundNorm 2200 n q.den e1
    if 971 < me.2 then .inf neg
    else if me.1 = 0 then .finite ⟨0, 1⟩
    else
      let mr := dyadicReduce 1200 me.1 me.2
      .finite
        (if 0 ≤ mr.2 then
          ⟨(if neg then -(mr.1 : Int) else (mr.1 : Int)) * 2 ^ mr.2.toNat, 1⟩
        else
          ⟨if neg then -(mr.1 : Int) else (mr.1 : Int), 2 ^ (-mr.2).toNat⟩)

/-- Is a character list a valid Python digit group with optional single
underscores between digits (`digit (["_"] digit)*`)? -/
def digitsGroupOk (l : List Char) : Bool :=
  (splitOnC '_' l).all fun p => !p.isEmpty && p.all isDigitC

/-- Remove the underscore separators of a validated digit group. -/
def stripUnders (l : List Char) : List Char := l.filter fun c => c ≠ '_'

/-- Parse a decimal mantissa (`D+ | D+.D* | .D+`, underscores allowed
inside each digit group) to its exact rational value. -/
def parseFloatMantissa (l : List Char) : Option PFloat :=
  match splitOnC '.' l with
  | [a] => if digitsGroupOk a then some ⟨toNatC (stripUnders a), 1⟩ else none
  | [a, b] =>
    if (a.isEmpty || digitsGroupOk a) && (b.isEmpty || digitsGroupOk b)
        && !(a.isEmpty && b.isEmpty) then
      let db := stripUnders b
      some ⟨toNatC (stripUnders a) * 10 ^ db.length + toNatC db,
        10 ^ db.length⟩
    else none
  | _ => none

/-- Apply a signed decimal exponent to a mantissa (exactly; rounding
happens once, afterwards). -/
def pfApplyExp (m : PFloat) (esign : Bool) (e : Nat) : PFloat :=
  if esign then ⟨m.num * 10 ^ e, m.den⟩ else ⟨m.num, m.den * 10 ^ e⟩

/-- Split a literal at the first `e`/`E`, if any. -/
def splitExp (l : List Char) : List Char × Option (List Char) :=
  match splitOnC 'e' (l.map fun c => if c = 'E' then 'e' else c) with
  | [a] => (a, Option.none)
  | [a, b] => (a, some b)
  | _ => ([], some [])

/-- Strip an optional leading sign, returning (isNegative, rest). -/
def splitSign : List Char → Bool × List Char
  | '+' :: r => (false, r)
  | '-' :: r => (true, r)
  | r => (false, r)

/-- Model of Python `float(s)` on a string: whitespace-stripped,
optionally signed, case-insensitive `inf`/`infinity`/`nan`, or a decimal
literal with optional underscores and exponent, correctly rounded to
binary64 (overflow saturates to infinity; only `ValueError`, modelled by
`none`, can arise). -/
def parseFloatL (s : List Char) : Option PyFloat64 :=
  let t := stripC s
  let (neg, rest) := splitSign t
  let low := lowerC rest
  if low = "inf".toList ∨ low = "infinity".toList then some (.inf neg)
  else if low = "nan".toList then some .nan
  else
    let (mantPart, expPart) := splitExp rest
    match parseFloatMantissa mantPart with
    | Option.none => Option.none
    | some m =>
      let signed : PFloat := if neg then ⟨-m.num, m.den⟩ else m
      match expPart with
      | Option.none => some (roundFloat signed)
      | some ep =>
        let (eneg, edigits) := splitSign ep
        if digitsGroupOk edigits then
          some (roundFloat (pfApplyExp signed (!eneg) (toNatC (stripUnders edigits))))
        else Option.none

/-- Model of Python `float(value)` restricted to the conversions that
return: `TypeError`/`ValueError` become `none`. An `int` too large for a
double makes the real `float()` raise `OverflowError`, which
`test_filter` does not catch; that raising case is marked by
`floatConvRaises` and such conversions here yield the saturated
infinity. Stored `.float` values are assumed to be exact doubles.
Python `bool` is an `int` subclass. -/
def pyFloat64V : PyValue → Option PyFloat64
  | .none => Option.none
  | .bool b => some (.finite ⟨if b then 1 else 0, 1⟩)
  | .int n => some (roundFloat ⟨n, 1⟩)
  | .float f => some (.finite f)
  | .str s => parseFloatL s
  | .datetime _ => Option.none

/-- Does `float(value)` raise an uncaught `OverflowError` (an `int`
beyond the double range)? `test_filter` catches only
`ValueError`/`TypeError`, so this case crashes the program. -/
def floatConvRaises : PyValue → Bool
  | .int n =>
    match roundFloat ⟨n, 1⟩ with
    | .inf _ => true
    | _ => false
  | _ => false

/-- Comparison `a < b` on doubles: NaN compares false with everything. -/
def f64Lt : PyFloat64 → PyFloat64 → Bool
  | .nan, _ => false
  | _, .nan => false
  | .inf s1, .inf s2 => s1 && !s2
  | .inf s, .finite _ => s
  | .finite _, .inf s => !s
  | .finite a, .finite b => pfLt a b

/-- Comparison `a ≤ b` on doubles: NaN compares false with everything. -/
def f64Le : PyFloat64 → PyFloat64 → Bool
  | .nan, _ => false
  | _, .nan => false
  | .inf s1, .inf s2 => s1 || !s2
  | .inf s, .finite _ => s
  | .finite _, .inf s => !s
  | .finite a, .finite b => pfLe a b

/-- Model of the Python idiom `value or 0`. -/
def pyOrZero (v : PyValue) : PyValue := if pyTruthy v then v else .int 0

/-! ### strptime-style format parsers

Each parser models one `datetime.strptime` format string from
`parse_date_value`'s `date_formats` list, restricted to the directives
those formats use (`%Y` 1-4 digits, `%m`/`%d`/`%H`/`%M`/`%S` 1-2 digits,
full-string match, with the resulting date validated as `datetime` does). -/

/-- Validate and build a date exactly as `datetime(year, month, day)`
does (`none` models `ValueError`). -/
def mkValidDate (y m d : Nat) : Option PyDate :=
  if validYMD y m d then some ⟨y, m, d⟩ else none

/-- Parser for `%Y-%m-%d`. -/
def pYMD (l : List Char) : Option PyDate :=
  match splitOnC '-' l with
  | [a, b, c] =>
    match readYear a, readNum 2 b, readNum 2 c with
    | some y, some m, some d => mkValidDate y m d
    | _, _, _ => Option.none
  | _ => Option.none

/-- Parser for `%d<sep>%m<sep>%Y` (used with `/` and `-`). -/
def pDMY (sep : Char) (l : List Char) : Option PyDate :=
  match splitOnC sep l with
  | [a, b, c] =>
    match readNum 2 a, readNum 2 b, readYear c with
    | some d, some m, some y => mkValidDate y m d
    | _, _, _ => Option.none
  | _ => Option.none

/-- Parser for `%H:%M:%S`; the time is validated then discarded
(`.date()` is applied to every successful parse). -/
def pTime (l : List Char) : Option Unit :=
  match splitOnC ':' l with
  | [a, b, c] =>
    match readNum 2 a, readNum 2 b, readNum 2 c with
    | some h, some m, some s =>
      if h ≤ 23 ∧ m ≤ 59 ∧ s ≤ 61 then some () else Option.none
    | _, _, _ => Option.none
  | _ => Option.none

/-- Parser for `<date><sep><time>` formats. -/
def pDateTime (dateP : List Char → Option PyDate) (sep : Char)
    (l : List Char) : Option PyDate :=
  match splitOnC sep l with
  | [dpart, tpart] =>
    match dateP dpart, pTime tpart with
    | some d, some _ => some d
    | _, _ => Option.none
  | _ => Option.none

/-- Parser for `%Y-%m-%dT%H:%M:%SZ`: a literal trailing `Z` after the
ISO date-time form. -/
def pYMDTZ (l : List Char) : Option PyDate :=
  match l.reverse with
  | 'Z' :: rest => pDateTime pYMD 'T' rest.reverse
  | _ => Option.none

/-- Shape test for the regex `\d{4}-\d{2}-\d{2}` anchored at the head of
the list (the fragment lengths are fixed, so the regex engine has no
backtracking freedom). -/
def isoShapeAt : List Char → Bool
  | a :: b :: c :: d :: e :: f :: g :: h :: i :: j :: _ =>
    isDigitC a && isDigitC b && isDigitC c && isDigitC d && (e = '-')
      && isDigitC f && isDigitC g && (h = '-') && isDigitC i && isDigitC j
  | _ => false

/-- Model of `re.search(r'(\d{4}-\d{2}-\d{2})', s)` followed by one
`strptime('%Y-%m-%d')` attempt on the first match (lines 122-128): scan
for the first matching position; a failed parse of the match falls
through to `None` without further searching. -/
def isoRegexFallback : List Char → Option PyDate
  | [] => Option.none
  | l@(_ :: rest) =>
    if isoShapeAt l then pYMD (l.take 10) else isoRegexFallback rest

/-- The ordered `date_formats` list of `parse_date_value` (lines 104-119):
first successful format wins. -/
def tryFormats (l : List Char) : Option PyDate :=
  (pYMD l).orElse fun _ =>
  (pDMY '/' l).orElse fun _ =>
  (pDMY '-' l).orElse fun _ =>
  (pDateTime pYMD ' ' l).orElse fun _ =>
  (pDateTime (pDMY '/') ' ' l).orElse fun _ =>
  (pDateTime pYMD 'T' l).orElse fun _ =>
  (pYMDTZ l).orElse fun _ =>
  isoRegexFallback l

/-- The seconds-or-milliseconds reinterpretation applied by
`parse_date_value` to a numeric value (lines 79-84): strictly above `1e10`
the value is divided by 1000, at or below it is used unchanged. -/
def timestampThresh (q : PFloat) : PFloat :=
  if pfGtTenBillion q then pfDivThousand q else q

/-- Textual part of `parse_date_value` (lines 88-131): `str(value).strip()`
is the input; empty string and digit-string (timestamp) handling precede
the format list and the regex fallback. This branch models the
`except (ValueError, OSError)` capture; the uncaught `OverflowError`
case is modelled by `parseDateTextExc`. -/
def parseDateText (raw : List Char) : Option PyDate :=
  let ds := stripC raw
  if ds.isEmpty then Option.none
  else if ds.all isDigitC then
    match fromtimestampDate (timestampThresh (pfOfInt (toNatC ds))) with
    | some d => some d
    | Option.none => tryFormats ds
  else tryFormats ds

/-- Numeric (timestamp) branch of `parse_date_value` (lines 77-86): on a
caught conversion failure (`ValueError`/`OSError`) fall through to the
textual parsing of `str(value)`. -/
def parseDateNumeric (q : PFloat) (sv : List Char) : Option PyDate :=
  match fromtimestampDate (timestampThresh q) with
  | some d => some d
  | Option.none => parseDateText sv

/-- Embedding of `parse_date_value` (lines 52-131) on the inputs where
no uncaught exception occurs. Python `bool` is an `int` instance, so
truthy booleans take the timestamp branch; `datetime` values take the
`hasattr(value, 'date')` branch. The exception-aware embedding is
`parse_date_value_exc`, which agrees with this function whenever it
returns (`parse_date_value_exc_ok`). -/
def parse_date_value (v : PyValue) : Option PyDate :=
  if pyTruthy v = false then Option.none
  else
    match v with
    | .none => Option.none
    | .datetime d => some d
    | .int n => parseDateNumeric (pfOfInt n) (pyStr (.int n))
    | .float f => parseDateNumeric f (pyStr (.float f))
    | .bool b => parseDateNumeric (pfOfInt (if b then 1 else 0)) (pyStr (.bool b))
    | .str s => parseDateText s

/-- `strftime('%d/%m/%Y')` on a parsed date (the rendering used by
`format_date_french`); the year is modelled zero-padded to four digits
(glibc leaves years below 1000 unpadded, a case no verified claim
touches). -/
def frenchOfDate (d : PyDate) : List Char :=
  [d2c (d.day / 10 % 10), d2c (d.day % 10), '/',
   d2c (d.month / 10 % 10), d2c (d.month % 10), '/',
   d2c (d.year / 1000 % 10), d2c (d.year / 100 % 10),
   d2c (d.year / 10 % 10), d2c (d.year % 10)]

/-- Embedding of `format_date_french` (lines 133-161). -/
def format_date_french (v : PyValue) : List Char :=
  if pyTruthy v = false then []
  else
    match parse_date_value v with
    | some d => frenchOfDate d
    | Option.none =>
      match v with
      | .str s =>
        if '-' ∈ s then
          match pYMD (s.take 10) with
          | some d => frenchOfDate d
          | Option.none => s
        else s
      | w => pyStr w

/-! ### Filter evaluation -/

/-- Embedding of `check_date_filter` (lines 163-213). The `try` block's
`ValueError`/`TypeError` captures are modelled by the `Option`-valued
`strptime` parsers: a failed parse yields `false`. An operator that starts
with `date_` but matches no branch falls to the final `return False`. -/
def check_date_filter (field_value : PyValue) (operator : List Char)
    (filter_value : List Char) : Bool :=
  if filter_value.isEmpty then true
  else
    match parse_date_value field_value with
    | Option.none => false
    | some field_date =>
      if operator = "date_before".toList then
        match pYMD filter_value with
        | some cd => dateLt field_date cd
        | Option.none => false
      else if operator = "date_after".toList then
        match pYMD filter_value with
        | some cd => dateLt cd field_date
        | Option.none => false
      else if operator = "date_on".toList then
        match pYMD filter_value with
        | some cd => field_date = cd
        | Option.none => false
      else if operator = "date_between".toList then
        if ¬ ('|' ∈ filter_value) then false
        else
          match splitOnC '|' filter_value with
          | [a, b] =>
            match pYMD a, pYMD b with
            | some sd, some ed => dateLe sd field_date && dateLe field_date ed
            | _, _ => false
          | _ => false
      else false

/-- Was the value `None`? (Python `is None`.) -/
def isNoneV : PyValue → Bool
  | .none => true
  | _ => false

/-- Embedding of `test_filter` (lines 215-273): the non-date operator
family, with the final permissive `return True` for unknown operators.
The numeric branches catch only `ValueError`/`TypeError`; an `int` field
value beyond the double range makes the real code raise an uncaught
`OverflowError` (see `floatConvRaises`), so this Boolean model is
faithful on inputs where `floatConvRaises (pyOrZero field_value)` is
false. -/
def test_filter (field_value : PyValue) (operator : List Char)
    (value : List Char) : Bool :=
  if operator = "empty".toList then
    isNoneV field_value || (stripC (pyStr field_value)).isEmpty
  else if operator = "not_empty".toList then
    !isNoneV field_value && !(stripC (pyStr field_value)).isEmpty
  else if value.isEmpty then true
  else
    let field_str := if isNoneV field_value then [] else lowerC (pyStr field_value)
    let value_str := if value.isEmpty then [] else lowerC value
    if operator = "equals".toList then field_str = value_str
    else if operator = "not_equals".toList then field_str ≠ value_str
    else if operator = "contains".toList then subOfL value_str field_str
    else if operator = "not_contains".toList then !subOfL value_str field_str
    else if operator = "starts_with".toList then prefixOfL value_str field_str
    else if operator = "ends_with".toList then
      prefixOfL value_str.reverse field_str.reverse
    else if operator = "greater_than".toList then
      match pyFloat64V (pyOrZero field_value), parseFloatL value with
      | some a, some b => f64Lt b a
      | _, _ => false
    else if operator = "less_than".toList then
      match pyFloat64V (pyOrZero field_value), parseFloatL value with
      | some a, some b => f64Lt a b
      | _, _ => false
    else if operator = "greater_equal".toList then
      match pyFloat64V (pyOrZero field_value), parseFloatL value with
      | some a, some b => f64Le b a
      | _, _ => false
    else if operator = "less_equal".toList then
      match pyFloat64V (pyOrZero field_value), parseFloatL value with
      | some a, some b => f64Le a b
      | _, _ => false
    else true

/-- One configured filter: `column`, `operator`, `value` (the source type
annotations declare the operand a `str`). -/
structure FilterSpec where
  column : List Char
  operator : List Char
  value : List Char
deriving DecidableEq

/-- Field mapping of one record (`record['fields']` dictionary). -/
def Fields := List (List Char × PyValue)

instance : DecidableEq Fields := by unfold Fields; infer_instance

/-- Dictionary lookup with default (`dict.get(key, default)`). -/
def dictGetD (fields : Fields) (k : List Char) (dflt : PyValue) : PyValue :=
  match fields.find? (fun p => p.1 = k) with
  | some p => p.2
  | Option.none => dflt

/-- One Grist record: its integer `id` and its field mapping. -/
structure GristRecord where
  id : Int
  fields : Fields
deriving DecidableEq

/-- The per-filter dispatch in `apply_filters`' inner loop (lines 297-310):
operators whose name starts with `date_` go to `check_date_filter`, all
others to `test_filter`; the field value is `fields.get(column)`. -/
def evalOneFilter (fc : FilterSpec) (fields : Fields) : Bool :=
  let field_value := dictGetD fields fc.column .none
  if prefixOfL "date_".toList fc.operator then
    check_date_filter field_value fc.operator fc.value
  else
    test_filter field_value fc.operator fc.value

/-- Embedding of `apply_filters` (lines 275-322). -/
def apply_filters (records : List GristRecord) (filters : List FilterSpec)
    (filter_logic : List Char) : List GristRecord :=
  if filters.isEmpty then records
  else
    records.filter fun record =>
      let filter_results := filters.map fun fc => evalOneFilter fc record.fields
      if filter_logic = "OR".toList then filter_results.any id
      else filter_results.all id

/-- Python `!=` between a field value and a string literal (cross-type
comparisons of the values occurring here are never equal). -/
def pyEqStrV (v : PyValue) (s : List Char) : Bool :=
  match v with
  | .str t => t = s
  | _ => false

/-- Embedding of the selection part of
`GitHubActionSender.get_records_to_process` (lines 515-562), given the
records fetched from Grist: optional filter application (lines 531-538)
followed by the dossier-id / sync-status gate (lines 540-562). -/
def get_records_to_process (records : List GristRecord)
    (filters : List FilterSpec) (filter_logic : List Char)
    (force_send : Bool) : List GristRecord :=
  let filtered :=
    if filters.isEmpty then records
    else apply_filters records filters filter_logic
  filtered.filter fun record =>
    let sync_mail := dictGetD record.fields "sync_mail".toList (.str [])
    let dossier_id := dictGetD record.fields "dossier_id".toList (.str [])
    pyTruthy dossier_id &&
      (force_send || !pyEqStrV sync_mail "success".toList)

/-! ### Dispatch: template rendering, per-record send, batch loop -/

/-- Opening brace character (written via its code point). -/
def lbrace : Char := Char.ofNat 123

/-- Closing brace character (written via its code point). -/
def rbrace : Char := Char.ofNat 125

/-- Embedding of `GitHubActionSender.format_message_with_dates`
(lines 564-590): for every field with a non-`None` value, format it with
`format_date_french`, fall back to `str(value)` when the result is empty
or unchanged, and substitute every occurrence of the brace-delimited
placeholder. -/
def format_message_with_dates (template : List Char) (fields : Fields) :
    List Char :=
  fields.foldl
    (fun acc p =>
      if isNoneV p.2 then acc
      else
        let formatted := format_date_french p.2
        let fv :=
          if formatted.isEmpty || formatted = pyStr p.2 then pyStr p.2
          else formatted
        replaceAll (lbrace :: p.1 ++ [rbrace]) fv acc)
    template

/-- Result of `DSClient.send_message` as observed by the caller: the
client catches every exception internally and returns either a success
dictionary or an error dictionary with a textual message. -/
inductive DsResult where
  | success
  | failure (msg : List Char)
deriving DecidableEq

/-- The dictionary returned by `send_message_to_record`:
an error dictionary, the dry-run success dictionary, or the client's
success dictionary. -/
inductive SendRes where
  | err (msg : List Char)
  | okDry
  | ok
deriving DecidableEq

/-- The partial field update written back to Grist for one record. -/
structure UpdateData where
  sync_mail : List Char
  sync_date : List Char
  sync_error : List Char
deriving DecidableEq

/-- Environment of one run: configuration, toggles, clock, and the two
external collaborators as response oracles (both clients catch their own
exceptions and return plain values, lines 331-363 and 415-437). -/
structure SenderEnv where
  dry_run : Bool
  message_subject : List Char
  message_body : List Char
  instructeur_id : List Char
  now : List Char
  sendMessage : List Char → List Char → List Char → List Char → DsResult

/-- Observable behaviour of one `send_message_to_record` call: its return
value, the send calls made (dossier, instructeur, subject, body), and the
write-back calls made (record id, update data). -/
structure DispatchTrace where
  result : SendRes
  sends : List (List Char × List Char × List Char × List Char)
  updates : List (Int × UpdateData)
deriving DecidableEq

/-- Embedding of `GitHubActionSender.send_message_to_record`
(lines 592-657). The dry-run branch returns before any send; the
write-back guard `if not self.dry_run` (line 642) is always reached with
`dry_run = false` because the dry-run branch returned at line 610. The
write-back response itself is only logged, so it does not appear in the
trace. -/
def send_message_to_record (env : SenderEnv) (record : GristRecord) :
    DispatchTrace :=
  let fields := record.fields
  let dossier_id := pyStr (dictGetD fields "dossier_id".toList (.str []))
  if dossier_id.isEmpty then
    ⟨.err "dossier_id manquant".toList, [], []⟩
  else
    let subject := format_message_with_dates env.message_subject fields
    let body := format_message_with_dates env.message_body fields
    if env.dry_run then ⟨.okDry, [], []⟩
    else
      let result := env.sendMessage dossier_id env.instructeur_id subject body
      let update_data :=
        match result with
        | .success => UpdateData.mk "success".toList env.now []
        | .failure msg => UpdateData.mk "failure".toList env.now (msg.take 500)
      ⟨(match result with
        | .success => .ok
        | .failure msg => .err msg),
       [(dossier_id, env.instructeur_id, subject, body)],
       [(record.id, update_data)]⟩

/-- Apply a list of write-backs to a store of records (the effect of
`GristClient.update_record` on the external table). -/
def applyUpdate (store : List GristRecord) (u : Int × UpdateData) :
    List GristRecord :=
  store.map fun r =>
    if r.id = u.1 then
      { r with fields :=
          (("sync_mail".toList, PyValue.str u.2.sync_mail) ::
           ("sync_date".toList, PyValue.str u.2.sync_date) ::
           ("sync_error".toList, PyValue.str u.2.sync_error) ::
           (r.fields.filter fun p =>
             p.1 ≠ "sync_mail".toList ∧ p.1 ≠ "sync_date".toList ∧
               p.1 ≠ "sync_error".toList)) }
    else r

/-- Apply all recorded write-backs in order. -/
def applyUpdates (store : List GristRecord) (us : List (Int × UpdateData)) :
    List GristRecord :=
  us.foldl applyUpdate store

/-- A raised Python exception (only its message is modelled). -/
structure PyExn where
  msg : List Char
deriving DecidableEq

/-- Aggregated results of one run (the `results` dictionary of
`send_batch`, lines 688-694): counts plus the ordered detail list of
(raw `dossier_id` field value, error text) for failed records. -/
structure BatchResults where
  total_records : Nat
  success_count : Nat
  error_count : Nat
  details : List (PyValue × List Char)
deriving DecidableEq

/-- One iteration of the `send_batch` dispatch loop (lines 712-724):
classify the per-record result into the aggregate. -/
def recordStep (acc : BatchResults) (record : GristRecord) (res : SendRes) :
    BatchResults :=
  match res with
  | .ok => { acc with success_count := acc.success_count + 1 }
  | .okDry => { acc with success_count := acc.success_count + 1 }
  | .err msg =>
    { acc with
        error_count := acc.error_count + 1,
        details := acc.details ++
          [(dictGetD record.fields "dossier_id".toList (.str "N/A".toList), msg)] }

/-- The `send_batch` dispatch loop body (lines 696-724) over a per-record
processor that, like any Python call, may raise. The loop contains no
`try`/`except`: a raised exception propagates out of the whole loop. -/
def sendBatchGo (process : GristRecord → Except PyExn SendRes) :
    List GristRecord → BatchResults → Except PyExn BatchResults
  | [], acc => .ok acc
  | r :: rest, acc =>
    match process r with
    | .error e => .error e
    | .ok res => sendBatchGo process rest (recordStep acc r res)

/-- Embedding of the dispatch-loop phase of `GitHubActionSender.send_batch`
(lines 687-724): initialise the aggregate (`total_records` is fixed up
front) and run the loop. -/
def send_batch_loop (process : GristRecord → Except PyExn SendRes)
    (records : List GristRecord) : Except PyExn BatchResults :=
  sendBatchGo process records ⟨records.length, 0, 0, []⟩

/-! ### Exception-aware date parsing

`datetime.fromtimestamp` raises an uncaught `OverflowError` when the
timestamp's floored seconds fall outside the platform `time_t` range
(`[-2^63, 2^63 - 1]` on 64-bit CPython); `parse_date_value` catches only
`ValueError`/`OSError` (lines 85, 100), so that error propagates out of
the whole parse. The functions below embed `parse_date_value` with that
escape hatch explicit. -/

/-- Does `fromtimestamp` raise the uncaught `OverflowError`: floored
seconds outside `time_t` (exact-rational model of the converted
value). -/
def pfTimeTOverflow (ts : PFloat) : Bool :=
  decide (ts.num / (ts.den : Int) < -(2 ^ 63) ∨
    2 ^ 63 - 1 < ts.num / (ts.den : Int))

/-- The uncaught exception escaping `parse_date_value`. -/
def overflowError : PyExn :=
  ⟨"OverflowError: timestamp out of range for platform time_t".toList⟩

/-- Exception-aware textual branch of `parse_date_value`: identical to
`parseDateText` except that the digit-string timestamp retry propagates
the uncaught `OverflowError`. -/
def parseDateTextExc (raw : List Char) : Except PyExn (Option PyDate) :=
  let ds := stripC raw
  if ds.isEmpty then .ok Option.none
  else if ds.all isDigitC then
    if pfTimeTOverflow (timestampThresh (pfOfInt (toNatC ds))) then
      .error overflowError
    else
      match fromtimestampDate (timestampThresh (pfOfInt (toNatC ds))) with
      | some d => .ok (some d)
      | Option.none => .ok (tryFormats ds)
  else .ok (tryFormats ds)

/-- Exception-aware numeric branch of `parse_date_value`. -/
def parseDateNumericExc (q : PFloat) (sv : List Char) :
    Except PyExn (Option PyDate) :=
  if pfTimeTOverflow (timestampThresh q) then .error overflowError
  else
    match fromtimestampDate (timestampThresh q) with
    | some d => .ok (some d)
    | Option.none => parseDateTextExc sv

/-- Exception-aware embedding of `parse_date_value` (lines 52-131):
`.error` is an uncaught `OverflowError` terminating the caller, `.ok`
the returned optional date. -/
def parse_date_value_exc (v : PyValue) : Except PyExn (Option PyDate) :=
  if pyTruthy v = false then .ok Option.none
  else
    match v with
    | .none => .ok Option.none
    | .datetime d => .ok (some d)
    | .int n => parseDateNumericExc (pfOfInt n) (pyStr (.int n))
    | .float f => parseDateNumericExc f (pyStr (.float f))
    | .bool b =>
      parseDateNumericExc (pfOfInt (if b then 1 else 0)) (pyStr (.bool b))
    | .str s => parseDateTextExc s

/-! ### Claim-side date formatters

These render a calendar date in each of the seven textual formats accepted
by `parse_date_value` (zero-padded, as the round-trip claim's
`format(d)` side). -/

/-- Two-digit zero-padded rendering. -/
def pad2 (n : Nat) : List Char := [d2c (n / 10 % 10), d2c (n % 10)]

/-- Four-digit zero-padded rendering. -/
def pad4 (n : Nat) : List Char :=
  [d2c (n / 1000 % 10), d2c (n / 100 % 10), d2c (n / 10 % 10), d2c (n % 10)]

/-- `YYYY-MM-DD`. -/
def fmtIso (y m d : Nat) : List Char := pad4 y ++ '-' :: (pad2 m ++ '-' :: pad2 d)

/-- `DD/MM/YYYY`. -/
def fmtFrSlash (y m d : Nat) : List Char := pad2 d ++ '/' :: (pad2 m ++ '/' :: pad4 y)

/-- `DD-MM-YYYY`. -/
def fmtFrDash (y m d : Nat) : List Char := pad2 d ++ '-' :: (pad2 m ++ '-' :: pad4 y)

/-- `HH:MM:SS`. -/
def fmtTime (h mi s : Nat) : List Char := pad2 h ++ ':' :: (pad2 mi ++ ':' :: pad2 s)

/-- `YYYY-MM-DD HH:MM:SS`. -/
def fmtIsoSpace (y m d h mi s : Nat) : List Char :=
  fmtIso y m d ++ ' ' :: fmtTime h mi s

/-- `DD/MM/YYYY HH:MM:SS`. -/
def fmtFrSlashTime (y m d h mi s : Nat) : List Char :=
  fmtFrSlash y m d ++ ' ' :: fmtTime h mi s

/-- `YYYY-MM-DDTHH:MM:SS`. -/
def fmtIsoT (y m d h mi s : Nat) : List Char :=
  fmtIso y m d ++ 'T' :: fmtTime h mi s

/-- `YYYY-MM-DDTHH:MM:SSZ`. -/
def fmtIsoTZ (y m d h mi s : Nat) : List Char := fmtIsoT y m d h mi s ++ ['Z']

/-! ### Helper lemmas: digits, pads, splitting, stripping -/

theorem c2d_d2c {n : Nat} (h : n < 10) : c2d (d2c n) = n := by
  interval_cases n <;> rfl

theorem isDigitC_d2c {n : Nat} (h : n < 10) : isDigitC (d2c n) = true := by
  interval_cases n <;> rfl

theorem isSpaceC_of_digit {c : Char} (h : isDigitC c = true) :
    isSpaceC c = false := by
  simp only [isDigitC, decide_eq_true_eq] at h
  simp only [isSpaceC, Bool.or_eq_false_iff, decide_eq_false_iff_not]
  refine ⟨⟨⟨⟨⟨?_, ?_⟩, ?_⟩, ?_⟩, ?_⟩, ?_⟩ <;>
    (rintro rfl; revert h; decide)

theorem digit_ne {c x : Char} (h : isDigitC c = true) (hx : isDigitC x = false) :
    c ≠ x := by
  rintro rfl; rw [h] at hx; cases hx

theorem mem_pad2 {c : Char} {n : Nat} (h : c ∈ pad2 n) : isDigitC c = true := by
  simp only [pad2, List.mem_cons, List.mem_singleton, List.not_mem_nil] at h
  rcases h with rfl | rfl | h
  · exact isDigitC_d2c (Nat.mod_lt _ (by omega))
  · exact isDigitC_d2c (Nat.mod_lt _ (by omega))
  · cases h

theorem mem_pad4 {c : Char} {n : Nat} (h : c ∈ pad4 n) : isDigitC c = true := by
  simp only [pad4, List.mem_cons, List.mem_singleton, List.not_mem_nil] at h
  rcases h with rfl | rfl | rfl | rfl | h
  · exact isDigitC_d2c (Nat.mod_lt _ (by omega))
  · exact isDigitC_d2c (Nat.mod_lt _ (by omega))
  · exact isDigitC_d2c (Nat.mod_lt _ (by omega))
  · exact isDigitC_d2c (Nat.mod_lt _ (by omega))
  · cases h

theorem toNatC_append_last (l : List Char) (c : Char) :
    toNatC (l ++ [c]) = toNatC l * 10 + c2d c := by
  simp [toNatC, List.foldl_append]

theorem toNatC_singleton (c : Char) : toNatC [c] = c2d c := by
  simp [toNatC]

theorem toNatC_pad2 {n : Nat} (h : n < 100) : toNatC (pad2 n) = n := by
  show toNatC ([d2c (n / 10 % 10)] ++ [d2c (n % 10)]) = n
  rw [toNatC_append_last, toNatC_singleton, c2d_d2c (Nat.mod_lt _ (by omega)),
    c2d_d2c (Nat.mod_lt _ (by omega))]
  omega

theorem toNatC_pad4 {n : Nat} (h : n < 10000) : toNatC (pad4 n) = n := by
  show toNatC (([d2c (n / 1000 % 10)] ++ [d2c (n / 100 % 10)] ++
    [d2c (n / 10 % 10)]) ++ [d2c (n % 10)]) = n
  rw [toNatC_append_last, toNatC_append_last, toNatC_append_last,
    toNatC_singleton]
  rw [c2d_d2c (Nat.mod_lt _ (by omega)), c2d_d2c (Nat.mod_lt _ (by omega)),
    c2d_d2c (Nat.mod_lt _ (by omega)), c2d_d2c (Nat.mod_lt _ (by omega))]
  omega

theorem readNum2_pad2 {n : Nat} (h : n < 100) : readNum 2 (pad2 n) = some n := by
  rw [readNum, if_pos, toNatC_pad2 h]
  refine ⟨by simp [pad2], by simp [pad2], ?_⟩
  simp only [List.all_eq_true]
  exact fun c hc => mem_pad2 hc

theorem readYear_pad2 (n : Nat) : readYear (pad2 n) = none := by
  rw [readYear, if_neg]
  intro h
  simp [pad2] at h

theorem readYear_pad4 {n : Nat} (h : n < 10000) :
    readYear (pad4 n) = some n := by
  rw [readYear, if_pos, toNatC_pad4 h]
  refine ⟨by simp [pad4], ?_⟩
  simp only [List.all_eq_true]
  exact fun c hc => mem_pad4 hc

theorem readNum2_pad4 (n : Nat) : readNum 2 (pad4 n) = none := by
  rw [readNum, if_neg]
  intro h
  simp [pad4] at h

theorem readYear_ne_four {l : List Char} (h : l.length ≠ 4) :
    readYear l = none := by
  rw [readYear, if_neg]
  intro hh
  exact h hh.1

theorem readNum_long {maxLen : Nat} {l : List Char} (h : maxLen < l.length) :
    readNum maxLen l = none := by
  rw [readNum, if_neg]
  intro hh
  omega

theorem splitOnC_not_mem {sep : Char} {l : List Char} (h : sep ∉ l) :
    splitOnC sep l = [l] := by
  induction l with
  | nil => rfl
  | cons c rest ih =>
    have hc : c ≠ sep := fun he => h (he ▸ List.mem_cons_self c rest)
    have hr : sep ∉ rest := fun hm => h (List.mem_cons_of_mem c hm)
    rw [splitOnC]
    simp only [hc, if_false, ih hr]

theorem splitOnC_append {sep : Char} {xs ys : List Char} (h : sep ∉ xs) :
    splitOnC sep (xs ++ sep :: ys) = xs :: splitOnC sep ys := by
  induction xs with
  | nil =>
    rw [List.nil_append, splitOnC]
    simp
  | cons c rest ih =>
    have hc : c ≠ sep := fun he => h (he ▸ List.mem_cons_self c rest)
    have hr : sep ∉ rest := fun hm => h (List.mem_cons_of_mem c hm)
    rw [List.cons_append, splitOnC]
    simp only [hc, if_false, ih hr]

theorem splitOnC_cons_sep (sep : Char) (ys : List Char) :
    splitOnC sep (sep :: ys) = [] :: splitOnC sep ys := by
  rw [splitOnC]
  simp

theorem splitOnC_ne_nil (sep : Char) (l : List Char) :
    splitOnC sep l ≠ [] := by
  induction l with
  | nil => simp [splitOnC]
  | cons c rest ih =>
    rw [splitOnC]
    by_cases hc : c = sep
    · simp [hc]
    · simp only [hc, if_false]
      cases hr : splitOnC sep rest with
      | nil => simp
      | cons a t => simp

theorem dropWhile_eq_self_of_head {l : List Char}
    (h : ∀ c, l.head? = some c → isSpaceC c = false) :
    l.dropWhile isSpaceC = l := by
  cases l with
  | nil => rfl
  | cons c rest =>
    rw [List.dropWhile_cons, h c rfl]
    simp

theorem stripC_eq_self {l : List Char}
    (h1 : ∀ c, l.head? = some c → isSpaceC c = false)
    (h2 : ∀ c, l.getLast? = some c → isSpaceC c = false) :
    stripC l = l := by
  rw [stripC, dropWhile_eq_self_of_head h1, dropWhile_eq_self_of_head
    (fun c hc => h2 c (by rwa [List.head?_reverse] at hc)), List.reverse_reverse]

theorem all_digits_false_of_mem {l : List Char} {c : Char} (hc : c ∈ l)
    (hd : isDigitC c = false) : l.all isDigitC = false := by
  rw [Bool.eq_false_iff]
  intro h
  rw [List.all_eq_true] at h
  rw [h c hc] at hd
  cases hd

theorem pad2_no {x : Char} (hx : isDigitC x = false) (n : Nat) : x ∉ pad2 n := by
  intro h
  rw [mem_pad2 h] at hx
  cases hx

theorem pad4_no {x : Char} (hx : isDigitC x = false) (n : Nat) : x ∉ pad4 n := by
  intro h
  rw [mem_pad4 h] at hx
  cases hx

theorem mem_fmtTime {c : Char} {h mi s : Nat} (hc : c ∈ fmtTime h mi s) :
    isDigitC c = true ∨ c = ':' := by
  simp only [fmtTime, List.mem_append, List.mem_cons] at hc
  rcases hc with hc | rfl | hc | rfl | hc
  · exact Or.inl (mem_pad2 hc)
  · exact Or.inr rfl
  · exact Or.inl (mem_pad2 hc)
  · exact Or.inr rfl
  · exact Or.inl (mem_pad2 hc)

theorem fmtTime_no {x : Char} (hx : isDigitC x = false) (hne : x ≠ ':')
    (h mi s : Nat) : x ∉ fmtTime h mi s := by
  intro hmem
  rcases mem_fmtTime hmem with hd | rfl
  · rw [hd] at hx; cases hx
  · exact hne rfl

theorem mem_fmtIso {c : Char} {y m d : Nat} (hc : c ∈ fmtIso y m d) :
    isDigitC c = true ∨ c = '-' := by
  simp only [fmtIso, List.mem_append, List.mem_cons] at hc
  rcases hc with hc | rfl | hc | rfl | hc
  · exact Or.inl (mem_pad4 hc)
  · exact Or.inr rfl
  · exact Or.inl (mem_pad2 hc)
  · exact Or.inr rfl
  · exact Or.inl (mem_pad2 hc)

theorem fmtIso_no {x : Char} (hx : isDigitC x = false) (hne : x ≠ '-')
    (y m d : Nat) : x ∉ fmtIso y m d := by
  intro hmem
  rcases mem_fmtIso hmem with hd | rfl
  · rw [hd] at hx; cases hx
  · exact hne rfl

theorem mem_fmtFrSlash {c : Char} {y m d : Nat} (hc : c ∈ fmtFrSlash y m d) :
    isDigitC c = true ∨ c = '/' := by
  simp only [fmtFrSlash, List.mem_append, List.mem_cons] at hc
  rcases hc with hc | rfl | hc | rfl | hc
  · exact Or.inl (mem_pad2 hc)
  · exact Or.inr rfl
  · exact Or.inl (mem_pad2 hc)
  · exact Or.inr rfl
  · exact Or.inl (mem_pad4 hc)

theorem fmtFrSlash_no {x : Char} (hx : isDigitC x = false) (hne : x ≠ '/')
    (y m d : Nat) : x ∉ fmtFrSlash y m d := by
  intro hmem
  rcases mem_fmtFrSlash hmem with hd | rfl
  · rw [hd] at hx; cases hx
  · exact hne rfl

theorem mem_fmtFrDash {c : Char} {y m d : Nat} (hc : c ∈ fmtFrDash y m d) :
    isDigitC c = true ∨ c = '-' := by
  simp only [fmtFrDash, List.mem_append, List.mem_cons] at hc
  rcases hc with hc | rfl | hc | rfl | hc
  · exact Or.inl (mem_pad2 hc)
  · exact Or.inr rfl
  · exact Or.inl (mem_pad2 hc)
  · exact Or.inr rfl
  · exact Or.inl (mem_pad4 hc)

theorem fmtFrDash_no {x : Char} (hx : isDigitC x = false) (hne : x ≠ '-')
    (y m d : Nat) : x ∉ fmtFrDash y m d := by
  intro hmem
  rcases mem_fmtFrDash hmem with hd | rfl
  · rw [hd] at hx; cases hx
  · exact hne rfl

theorem pYMD_fmtIso {y m d : Nat} (hy : y < 10000) (hm : m < 100)
    (hd : d < 100) : pYMD (fmtIso y m d) = mkValidDate y m d := by
  rw [pYMD, fmtIso, splitOnC_append (pad4_no (by decide) y),
    splitOnC_append (pad2_no (by decide) m),
    splitOnC_not_mem (pad2_no (by decide) d)]
  simp [readYear_pad4 hy, readNum2_pad2 hm, readNum2_pad2 hd]

theorem pDMY_fmtFrSlash {y m d : Nat} (hy : y < 10000) (hm : m < 100)
    (hd : d < 100) : pDMY '/' (fmtFrSlash y m d) = mkValidDate y m d := by
  rw [pDMY, fmtFrSlash, splitOnC_append (pad2_no (by decide) d),
    splitOnC_append (pad2_no (by decide) m),
    splitOnC_not_mem (pad4_no (by decide) y)]
  simp [readYear_pad4 hy, readNum2_pad2 hm, readNum2_pad2 hd]

theorem pDMY_fmtFrDash {y m d : Nat} (hy : y < 10000) (hm : m < 100)
    (hd : d < 100) : pDMY '-' (fmtFrDash y m d) = mkValidDate y m d := by
  rw [pDMY, fmtFrDash, splitOnC_append (pad2_no (by decide) d),
    splitOnC_append (pad2_no (by decide) m),
    splitOnC_not_mem (pad4_no (by decide) y)]
  simp [readYear_pad4 hy, readNum2_pad2 hm, readNum2_pad2 hd]

theorem pYMD_fmtFrDash (y m d : Nat) : pYMD (fmtFrDash y m d) = none := by
  rw [pYMD, fmtFrDash, splitOnC_append (pad2_no (by decide) d),
    splitOnC_append (pad2_no (by decide) m),
    splitOnC_not_mem (pad4_no (by decide) y)]
  simp [readYear_pad2, readNum2_pad4]

theorem pYMD_fmtFrSlash (y m d : Nat) : pYMD (fmtFrSlash y m d) = none := by
  rw [pYMD, splitOnC_not_mem (fmtFrSlash_no (by decide) (by decide) y m d)]

theorem pDMY_slash_fmtIso (y m d : Nat) : pDMY '/' (fmtIso y m d) = none := by
  rw [pDMY, splitOnC_not_mem (fmtIso_no (by decide) (by decide) y m d)]

theorem pDMY_dash_fmtIso (y m d : Nat) :
    pDMY '-' (fmtIso y m d) = none := by
  rw [pDMY, fmtIso, splitOnC_append (pad4_no (by decide) y),
    splitOnC_append (pad2_no (by decide) m),
    splitOnC_not_mem (pad2_no (by decide) d)]
  simp [readNum2_pad4]

theorem pTime_fmtTime {h mi s : Nat} (hh : h ≤ 23) (hmi : mi ≤ 59)
    (hs : s ≤ 59) : pTime (fmtTime h mi s) = some () := by
  rw [pTime, fmtTime, splitOnC_append (pad2_no (by decide) h),
    splitOnC_append (pad2_no (by decide) mi),
    splitOnC_not_mem (pad2_no (by decide) s)]
  simp only [readNum2_pad2 (show h < 100 by omega),
    readNum2_pad2 (show mi < 100 by omega),
    readNum2_pad2 (show s < 100 by omega)]
  rw [if_pos ⟨hh, hmi, by omega⟩]

theorem dash_not_mem_tail (d h mi s : Nat) :
    '-' ∉ pad2 d ++ ' ' :: fmtTime h mi s := by
  intro hc
  rcases List.mem_append.mp hc with hc | hc
  · exact pad2_no (by decide) d hc
  · rcases List.mem_cons.mp hc with hc | hc
    · cases hc
    · exact fmtTime_no (by decide) (by decide) h mi s hc

theorem pYMD_fmtIsoSpace {y m d h mi s : Nat} (hy : y < 10000)
    (hm : m < 100) : pYMD (fmtIsoSpace y m d h mi s) = none := by
  rw [pYMD, fmtIsoSpace, fmtIso]
  rw [show (pad4 y ++ '-' :: (pad2 m ++ '-' :: pad2 d)) ++ ' ' :: fmtTime h mi s
      = pad4 y ++ '-' :: (pad2 m ++ '-' :: (pad2 d ++ ' ' :: fmtTime h mi s))
    by simp]
  rw [splitOnC_append (pad4_no (by decide) y),
    splitOnC_append (pad2_no (by decide) m),
    splitOnC_not_mem (dash_not_mem_tail d h mi s)]
  have hlen : 2 < (pad2 d ++ ' ' :: fmtTime h mi s).length := by
    simp [pad2, fmtTime]
  simp [readYear_pad4 hy, readNum2_pad2 hm, readNum_long hlen]

theorem pDMY_dash_fmtIsoSpace {y m d h mi s : Nat} :
    pDMY '-' (fmtIsoSpace y m d h mi s) = none := by
  rw [pDMY, fmtIsoSpace, fmtIso]
  rw [show (pad4 y ++ '-' :: (pad2 m ++ '-' :: pad2 d)) ++ ' ' :: fmtTime h mi s
      = pad4 y ++ '-' :: (pad2 m ++ '-' :: (pad2 d ++ ' ' :: fmtTime h mi s))
    by simp]
  rw [splitOnC_append (pad4_no (by decide) y),
    splitOnC_append (pad2_no (by decide) m),
    splitOnC_not_mem (dash_not_mem_tail d h mi s)]
  simp [readNum2_pad4]

theorem daysInMonth_le (y m : Nat) : daysInMonth y m ≤ 31 := by
  unfold daysInMonth
  split
  · split <;> omega
  · split <;> omega

theorem pYMD_single {l : List Char} (h : '-' ∉ l) : pYMD l = none := by
  rw [pYMD, splitOnC_not_mem h]

theorem pDMY_single {sep : Char} {l : List Char} (h : sep ∉ l) :
    pDMY sep l = none := by
  rw [pDMY, splitOnC_not_mem h]

theorem pDateTime_single {p : List Char → Option PyDate} {sep : Char}
    {l : List Char} (h : sep ∉ l) : pDateTime p sep l = none := by
  rw [pDateTime, splitOnC_not_mem h]

theorem pYMD_fmtIso_append {y m d : Nat} (tail : List Char)
    (htail : '-' ∉ tail) (hne : tail ≠ []) :
    pYMD (fmtIso y m d ++ tail) = none := by
  rw [fmtIso]
  rw [show (pad4 y ++ '-' :: (pad2 m ++ '-' :: pad2 d)) ++ tail
      = pad4 y ++ '-' :: (pad2 m ++ '-' :: (pad2 d ++ tail)) by simp]
  have hnm : '-' ∉ pad2 d ++ tail := by
    intro hc
    rcases List.mem_append.mp hc with hc | hc
    · exact pad2_no (by decide) d hc
    · exact htail hc
  rw [pYMD, splitOnC_append (pad4_no (by decide) y),
    splitOnC_append (pad2_no (by decide) m), splitOnC_not_mem hnm]
  have hlen : 2 < (pad2 d ++ tail).length := by
    have : tail.length ≠ 0 := fun hz => hne (List.length_eq_zero.mp hz)
    simp only [List.length_append, pad2, List.length_cons,
      List.length_singleton]
    omega
  simp [readNum_long hlen]

theorem pDMY_dash_fmtIso_append {y m d : Nat} (tail : List Char)
    (htail : '-' ∉ tail) :
    pDMY '-' (fmtIso y m d ++ tail) = none := by
  rw [fmtIso]
  rw [show (pad4 y ++ '-' :: (pad2 m ++ '-' :: pad2 d)) ++ tail
      = pad4 y ++ '-' :: (pad2 m ++ '-' :: (pad2 d ++ tail)) by simp]
  have hnm : '-' ∉ pad2 d ++ tail := by
    intro hc
    rcases List.mem_append.mp hc with hc | hc
    · exact pad2_no (by decide) d hc
    · exact htail hc
  rw [pDMY, splitOnC_append (pad4_no (by decide) y),
    splitOnC_append (pad2_no (by decide) m), splitOnC_not_mem hnm]
  simp [readNum2_pad4]

theorem pDMY_slash_fmtFrSlash_append {y m d : Nat} (tail : List Char)
    (htail : '/' ∉ tail) (hne : tail ≠ []) :
    pDMY '/' (fmtFrSlash y m d ++ tail) = none := by
  rw [fmtFrSlash]
  rw [show (pad2 d ++ '/' :: (pad2 m ++ '/' :: pad4 y)) ++ tail
      = pad2 d ++ '/' :: (pad2 m ++ '/' :: (pad4 y ++ tail)) by simp]
  have hnm : '/' ∉ pad4 y ++ tail := by
    intro hc
    rcases List.mem_append.mp hc with hc | hc
    · exact pad4_no (by decide) y hc
    · exact htail hc
  rw [pDMY, splitOnC_append (pad2_no (by decide) d),
    splitOnC_append (pad2_no (by decide) m), splitOnC_not_mem hnm]
  have hlen : (pad4 y ++ tail).length ≠ 4 := by
    have : tail.length ≠ 0 := fun hz => hne (List.length_eq_zero.mp hz)
    simp only [List.length_append, pad4, List.length_cons,
      List.length_singleton]
    omega
  simp [readYear_ne_four hlen]

theorem joinTime_no {x j : Char} {base : List Char} (hx : isDigitC x = false)
    (hc : x ≠ ':') (hj : x ≠ j) (hbase : x ∉ base) (h mi s : Nat) :
    x ∉ base ++ j :: fmtTime h mi s := by
  intro hmem
  rcases List.mem_append.mp hmem with hm | hm
  · exact hbase hm
  · rcases List.mem_cons.mp hm with hm | hm
    · exact hj hm
    · rcases mem_fmtTime hm with hd | rfl
      · rw [hd] at hx; cases hx
      · exact hc rfl

theorem joinTimeApp_no {x j z : Char} {base : List Char}
    (hx : isDigitC x = false) (hc : x ≠ ':') (hj : x ≠ j) (hz : x ≠ z)
    (hbase : x ∉ base) (h mi s : Nat) :
    x ∉ base ++ j :: (fmtTime h mi s ++ [z]) := by
  intro hmem
  rcases List.mem_append.mp hmem with hm | hm
  · exact hbase hm
  · rcases List.mem_cons.mp hm with hm | hm
    · exact hj hm
    · rcases List.mem_append.mp hm with hm | hm
      · rcases mem_fmtTime hm with hd | rfl
        · rw [hd] at hx; cases hx
        · exact hc rfl
      · rcases List.mem_singleton.mp hm with rfl
        exact hz rfl

theorem validYMD_bounds {y m d : Nat} (hv : validYMD y m d) :
    y < 10000 ∧ m < 100 ∧ d < 100 := by
  obtain ⟨h1, h2, h3, h4, h5, h6⟩ := hv
  have := daysInMonth_le y m
  omega

theorem tryFormats_fmtIso {y m d : Nat} (hv : validYMD y m d) :
    tryFormats (fmtIso y m d) = some ⟨y, m, d⟩ := by
  obtain ⟨hy, hm, hd⟩ := validYMD_bounds hv
  rw [tryFormats, pYMD_fmtIso hy hm hd, mkValidDate, if_pos hv]
  rfl

theorem tryFormats_fmtFrSlash {y m d : Nat} (hv : validYMD y m d) :
    tryFormats (fmtFrSlash y m d) = some ⟨y, m, d⟩ := by
  obtain ⟨hy, hm, hd⟩ := validYMD_bounds hv
  rw [tryFormats, pYMD_fmtFrSlash, pDMY_fmtFrSlash hy hm hd, mkValidDate,
    if_pos hv]
  rfl

theorem tryFormats_fmtFrDash {y m d : Nat} (hv : validYMD y m d) :
    tryFormats (fmtFrDash y m d) = some ⟨y, m, d⟩ := by
  obtain ⟨hy, hm, hd⟩ := validYMD_bounds hv
  rw [tryFormats, pYMD_fmtFrDash y m d,
    pDMY_single (fmtFrDash_no (by decide) (by decide) y m d),
    pDMY_fmtFrDash hy hm hd, mkValidDate, if_pos hv]
  rfl

theorem pDateTimeSpace_fmtIsoSpace {y m d h mi s : Nat} (hv : validYMD y m d)
    (hh : h ≤ 23) (hmi : mi ≤ 59) (hs : s ≤ 59) :
    pDateTime pYMD ' ' (fmtIsoSpace y m d h mi s) = some ⟨y, m, d⟩ := by
  obtain ⟨hy, hm, hd⟩ := validYMD_bounds hv
  rw [fmtIsoSpace, pDateTime,
    splitOnC_append (fmtIso_no (by decide) (by decide) y m d),
    splitOnC_not_mem (fmtTime_no (by decide) (by decide) h mi s)]
  simp [pYMD_fmtIso hy hm hd, mkValidDate, if_pos hv, pTime_fmtTime hh hmi hs]

theorem tryFormats_fmtIsoSpace {y m d h mi s : Nat} (hv : validYMD y m d)
    (hh : h ≤ 23) (hmi : mi ≤ 59) (hs : s ≤ 59) :
    tryFormats (fmtIsoSpace y m d h mi s) = some ⟨y, m, d⟩ := by
  obtain ⟨hy, hm, hd⟩ := validYMD_bounds hv
  rw [tryFormats, pYMD_fmtIsoSpace hy hm,
    pDMY_single (l := fmtIsoSpace y m d h mi s)
      (by rw [fmtIsoSpace]
          exact joinTime_no (by decide) (by decide) (by decide)
            (fmtIso_no (by decide) (by decide) y m d) h mi s),
    show pDMY '-' (fmtIsoSpace y m d h mi s) = none from
      pDMY_dash_fmtIso_append _
        (by intro hc
            rcases List.mem_cons.mp hc with hc | hc
            · cases hc
            · exact fmtTime_no (by decide) (by decide) h mi s hc),
    pDateTimeSpace_fmtIsoSpace hv hh hmi hs]
  rfl

theorem tryFormats_fmtFrSlashTime {y m d h mi s : Nat} (hv : validYMD y m d)
    (hh : h ≤ 23) (hmi : mi ≤ 59) (hs : s ≤ 59) :
    tryFormats (fmtFrSlashTime y m d h mi s) = some ⟨y, m, d⟩ := by
  obtain ⟨hy, hm, hd⟩ := validYMD_bounds hv
  have hdash : '-' ∉ fmtFrSlashTime y m d h mi s := by
    rw [fmtFrSlashTime]
    exact joinTime_no (by decide) (by decide) (by decide)
      (fmtFrSlash_no (by decide) (by decide) y m d) h mi s
  rw [tryFormats, pYMD_single hdash,
    show pDMY '/' (fmtFrSlashTime y m d h mi s) = none from
      pDMY_slash_fmtFrSlash_append _
        (by intro hc
            rcases List.mem_cons.mp hc with hc | hc
            · cases hc
            · exact fmtTime_no (by decide) (by decide) h mi s hc)
        (by simp),
    pDMY_single hdash]
  rw [show pDateTime pYMD ' ' (fmtFrSlashTime y m d h mi s) = none by
    rw [fmtFrSlashTime, pDateTime,
      splitOnC_append (fmtFrSlash_no (by decide) (by decide) y m d),
      splitOnC_not_mem (fmtTime_no (by decide) (by decide) h mi s)]
    simp [pYMD_fmtFrSlash]]
  rw [show pDateTime (pDMY '/') ' ' (fmtFrSlashTime y m d h mi s)
      = some ⟨y, m, d⟩ by
    rw [fmtFrSlashTime, pDateTime,
      splitOnC_append (fmtFrSlash_no (by decide) (by decide) y m d),
      splitOnC_not_mem (fmtTime_no (by decide) (by decide) h mi s)]
    simp [pDMY_fmtFrSlash hy hm hd, mkValidDate, if_pos hv,
      pTime_fmtTime hh hmi hs]]
  rfl

theorem pDateTimeT_fmtIsoT {y m d h mi s : Nat} (hv : validYMD y m d)
    (hh : h ≤ 23) (hmi : mi ≤ 59) (hs : s ≤ 59) :
    pDateTime pYMD 'T' (fmtIsoT y m d h mi s) = some ⟨y, m, d⟩ := by
  obtain ⟨hy, hm, hd⟩ := validYMD_bounds hv
  rw [fmtIsoT, pDateTime,
    splitOnC_append (fmtIso_no (by decide) (by decide) y m d),
    splitOnC_not_mem (fmtTime_no (by decide) (by decide) h mi s)]
  simp [pYMD_fmtIso hy hm hd, mkValidDate, if_pos hv, pTime_fmtTime hh hmi hs]

theorem tryFormats_fmtIsoT {y m d h mi s : Nat} (hv : validYMD y m d)
    (hh : h ≤ 23) (hmi : mi ≤ 59) (hs : s ≤ 59) :
    tryFormats (fmtIsoT y m d h mi s) = some ⟨y, m, d⟩ := by
  obtain ⟨hy, hm, hd⟩ := validYMD_bounds hv
  have hspace : ' ' ∉ fmtIsoT y m d h mi s := by
    rw [fmtIsoT]
    exact joinTime_no (by decide) (by decide) (by decide)
      (fmtIso_no (by decide) (by decide) y m d) h mi s
  rw [tryFormats,
    show pYMD (fmtIsoT y m d h mi s) = none from
      pYMD_fmtIso_append _
        (by intro hc
            rcases List.mem_cons.mp hc with hc | hc
            · cases hc
            · exact fmtTime_no (by decide) (by decide) h mi s hc)
        (by simp),
    pDMY_single (l := fmtIsoT y m d h mi s)
      (by rw [fmtIsoT]
          exact joinTime_no (by decide) (by decide) (by decide)
            (fmtIso_no (by decide) (by decide) y m d) h mi s),
    show pDMY '-' (fmtIsoT y m d h mi s) = none from
      pDMY_dash_fmtIso_append _
        (by intro hc
            rcases List.mem_cons.mp hc with hc | hc
            · cases hc
            · exact fmtTime_no (by decide) (by decide) h mi s hc),
    pDateTime_single hspace, pDateTime_single hspace,
    pDateTimeT_fmtIsoT hv hh hmi hs]
  rfl

theorem pTime_fmtTime_Z (h mi s : Nat) :
    pTime (fmtTime h mi s ++ ['Z']) = none := by
  rw [fmtTime]
  rw [show (pad2 h ++ ':' :: (pad2 mi ++ ':' :: pad2 s)) ++ ['Z']
      = pad2 h ++ ':' :: (pad2 mi ++ ':' :: (pad2 s ++ ['Z'])) by simp]
  have hnm : ':' ∉ pad2 s ++ ['Z'] := by
    intro hc
    rcases List.mem_append.mp hc with hc | hc
    · exact pad2_no (by decide) s hc
    · exact absurd (List.mem_singleton.mp hc) (by decide)
  rw [pTime, splitOnC_append (pad2_no (by decide) h),
    splitOnC_append (pad2_no (by decide) mi), splitOnC_not_mem hnm]
  have hlen : 2 < (pad2 s ++ ['Z']).length := by simp [pad2]
  simp [readNum_long hlen]

theorem tryFormats_fmtIsoTZ {y m d h mi s : Nat} (hv : validYMD y m d)
    (hh : h ≤ 23) (hmi : mi ≤ 59) (hs : s ≤ 59) :
    tryFormats (fmtIsoTZ y m d h mi s) = some ⟨y, m, d⟩ := by
  have heq : fmtIsoTZ y m d h mi s
      = fmtIso y m d ++ 'T' :: (fmtTime h mi s ++ ['Z']) := by
    rw [fmtIsoTZ, fmtIsoT]
    simp
  have htail : '-' ∉ 'T' :: (fmtTime h mi s ++ ['Z']) := by
    intro hc
    rcases List.mem_cons.mp hc with hc | hc
    · cases hc
    · rcases List.mem_append.mp hc with hc | hc
      · exact fmtTime_no (by decide) (by decide) h mi s hc
      · exact absurd (List.mem_singleton.mp hc) (by decide)
  have hspace : ' ' ∉ fmtIsoTZ y m d h mi s := by
    rw [heq]
    exact joinTimeApp_no (by decide) (by decide) (by decide) (by decide)
      (fmtIso_no (by decide) (by decide) y m d) h mi s
  rw [tryFormats,
    show pYMD (fmtIsoTZ y m d h mi s) = none from
      heq ▸ pYMD_fmtIso_append _ htail (by simp),
    pDMY_single (l := fmtIsoTZ y m d h mi s)
      (by rw [heq]
          exact joinTimeApp_no (by decide) (by decide) (by decide) (by decide)
            (fmtIso_no (by decide) (by decide) y m d) h mi s),
    show pDMY '-' (fmtIsoTZ y m d h mi s) = none from
      heq ▸ pDMY_dash_fmtIso_append _ htail,
    pDateTime_single hspace, pDateTime_single hspace]
  rw [show pDateTime pYMD 'T' (fmtIsoTZ y m d h mi s) = none by
    have hTt : 'T' ∉ fmtTime h mi s ++ ['Z'] := by
      intro hc
      rcases List.mem_append.mp hc with hc | hc
      · exact fmtTime_no (by decide) (by decide) h mi s hc
      · exact absurd (List.mem_singleton.mp hc) (by decide)
    rw [heq, pDateTime,
      splitOnC_append (fmtIso_no (by decide) (by decide) y m d),
      splitOnC_not_mem hTt]
    simp [pTime_fmtTime_Z]]
  rw [show pYMDTZ (fmtIsoTZ y m d h mi s) = some ⟨y, m, d⟩ by
    rw [fmtIsoTZ, pYMDTZ]
    simp only [List.reverse_append, List.reverse_cons, List.reverse_nil,
      List.nil_append, List.singleton_append]
    rw [List.reverse_reverse]
    exact pDateTimeT_fmtIsoT hv hh hmi hs]
  rfl

theorem parse_str_textual {l : List Char} (hne : l ≠ [])
    (hstrip : stripC l = l) (hnd : l.all isDigitC = false) :
    parse_date_value (.str l) = tryFormats l := by
  rw [parse_date_value]
  have ht : pyTruthy (.str l) = true := by
    simp [pyTruthy, hne]
  rw [ht]
  simp only [Bool.true_eq_false, if_false]
  rw [parseDateText, hstrip]
  simp [hne, hnd]

theorem strip_of_ends {l : List Char} {a b : Char} (ha : l.head? = some a)
    (hb : l.getLast? = some b) (hsa : isSpaceC a = false)
    (hsb : isSpaceC b = false) : stripC l = l := by
  refine stripC_eq_self (fun c hc => ?_) (fun c hc => ?_)
  · rw [ha] at hc
    injection hc with h2
    exact h2 ▸ hsa
  · rw [hb] at hc
    injection hc with h2
    exact h2 ▸ hsb

theorem isSpaceC_d2c_mod (k : Nat) : isSpaceC (d2c (k % 10)) = false :=
  isSpaceC_of_digit (isDigitC_d2c (Nat.mod_lt _ (by omega)))

theorem strip_fmtIso (y m d : Nat) : stripC (fmtIso y m d) = fmtIso y m d := by
  refine strip_of_ends (a := d2c (y / 1000 % 10)) (b := d2c (d % 10))
    ?_ ?_ (isSpaceC_d2c_mod _) (isSpaceC_d2c_mod _)
  · simp [fmtIso, pad4]
  · rw [← List.head?_reverse]
    simp [fmtIso, pad4, pad2]

theorem strip_fmtFrSlash (y m d : Nat) :
    stripC (fmtFrSlash y m d) = fmtFrSlash y m d := by
  refine strip_of_ends (a := d2c (d / 10 % 10)) (b := d2c (y % 10))
    ?_ ?_ (isSpaceC_d2c_mod _) (isSpaceC_d2c_mod _)
  · simp [fmtFrSlash, pad2]
  · rw [← List.head?_reverse]
    simp [fmtFrSlash, pad4, pad2]

theorem strip_fmtFrDash (y m d : Nat) :
    stripC (fmtFrDash y m d) = fmtFrDash y m d := by
  refine strip_of_ends (a := d2c (d / 10 % 10)) (b := d2c (y % 10))
    ?_ ?_ (isSpaceC_d2c_mod _) (isSpaceC_d2c_mod _)
  · simp [fmtFrDash, pad2]
  · rw [← List.head?_reverse]
    simp [fmtFrDash, pad4, pad2]

theorem strip_fmtIsoSpace (y m d h mi s : Nat) :
    stripC (fmtIsoSpace y m d h mi s) = fmtIsoSpace y m d h mi s := by
  refine strip_of_ends (a := d2c (y / 1000 % 10)) (b := d2c (s % 10))
    ?_ ?_ (isSpaceC_d2c_mod _) (isSpaceC_d2c_mod _)
  · simp [fmtIsoSpace, fmtIso, pad4]
  · rw [← List.head?_reverse]
    simp [fmtIsoSpace, fmtIso, fmtTime, pad4, pad2]

theorem strip_fmtFrSlashTime (y m d h mi s : Nat) :
    stripC (fmtFrSlashTime y m d h mi s) = fmtFrSlashTime y m d h mi s := by
  refine strip_of_ends (a := d2c (d / 10 % 10)) (b := d2c (s % 10))
    ?_ ?_ (isSpaceC_d2c_mod _) (isSpaceC_d2c_mod _)
  · simp [fmtFrSlashTime, fmtFrSlash, pad2]
  · rw [← List.head?_reverse]
    simp [fmtFrSlashTime, fmtFrSlash, fmtTime, pad4, pad2]

theorem strip_fmtIsoT (y m d h mi s : Nat) :
    stripC (fmtIsoT y m d h mi s) = fmtIsoT y m d h mi s := by
  refine strip_of_ends (a := d2c (y / 1000 % 10)) (b := d2c (s % 10))
    ?_ ?_ (isSpaceC_d2c_mod _) (isSpaceC_d2c_mod _)
  · simp [fmtIsoT, fmtIso, pad4]
  · rw [← List.head?_reverse]
    simp [fmtIsoT, fmtIso, fmtTime, pad4, pad2]

theorem strip_fmtIsoTZ (y m d h mi s : Nat) :
    stripC (fmtIsoTZ y m d h mi s) = fmtIsoTZ y m d h mi s := by
  refine strip_of_ends (a := d2c (y / 1000 % 10)) (b := 'Z')
    ?_ ?_ (isSpaceC_d2c_mod _) (by decide)
  · simp [fmtIsoTZ, fmtIsoT, fmtIso, pad4]
  · rw [← List.head?_reverse]
    simp [fmtIsoTZ, fmtIsoT, fmtIso, fmtTime, pad4, pad2]

theorem roundtrip_fmtIso {y m d : Nat} (hv : validYMD y m d) :
    parse_date_value (.str (fmtIso y m d)) = some ⟨y, m, d⟩ := by
  rw [parse_str_textual (by simp [fmtIso, pad4]) (strip_fmtIso y m d)
    (all_digits_false_of_mem (show '-' ∈ fmtIso y m d by simp [fmtIso])
      (by decide)), tryFormats_fmtIso hv]

theorem roundtrip_fmtFrSlash {y m d : Nat} (hv : validYMD y m d) :
    parse_date_value (.str (fmtFrSlash y m d)) = some ⟨y, m, d⟩ := by
  rw [parse_str_textual (by simp [fmtFrSlash, pad2]) (strip_fmtFrSlash y m d)
    (all_digits_false_of_mem (show '/' ∈ fmtFrSlash y m d by simp [fmtFrSlash])
      (by decide)), tryFormats_fmtFrSlash hv]

theorem roundtrip_fmtFrDash {y m d : Nat} (hv : validYMD y m d) :
    parse_date_value (.str (fmtFrDash y m d)) = some ⟨y, m, d⟩ := by
  rw [parse_str_textual (by simp [fmtFrDash, pad2]) (strip_fmtFrDash y m d)
    (all_digits_false_of_mem (show '-' ∈ fmtFrDash y m d by simp [fmtFrDash])
      (by decide)), tryFormats_fmtFrDash hv]

theorem roundtrip_fmtIsoSpace {y m d h mi s : Nat} (hv : validYMD y m d)
    (hh : h ≤ 23) (hmi : mi ≤ 59) (hs : s ≤ 59) :
    parse_date_value (.str (fmtIsoSpace y m d h mi s)) = some ⟨y, m, d⟩ := by
  rw [parse_str_textual (by simp [fmtIsoSpace, fmtIso, pad4])
    (strip_fmtIsoSpace y m d h mi s)
    (all_digits_false_of_mem
      (show '-' ∈ fmtIsoSpace y m d h mi s by simp [fmtIsoSpace, fmtIso])
      (by decide)), tryFormats_fmtIsoSpace hv hh hmi hs]

theorem roundtrip_fmtFrSlashTime {y m d h mi s : Nat} (hv : validYMD y m d)
    (hh : h ≤ 23) (hmi : mi ≤ 59) (hs : s ≤ 59) :
    parse_date_value (.str (fmtFrSlashTime y m d h mi s)) = some ⟨y, m, d⟩ := by
  rw [parse_str_textual (by simp [fmtFrSlashTime, fmtFrSlash, pad2])
    (strip_fmtFrSlashTime y m d h mi s)
    (all_digits_false_of_mem
      (show '/' ∈ fmtFrSlashTime y m d h mi s
        by simp [fmtFrSlashTime, fmtFrSlash])
      (by decide)), tryFormats_fmtFrSlashTime hv hh hmi hs]

theorem roundtrip_fmtIsoT {y m d h mi s : Nat} (hv : validYMD y m d)
    (hh : h ≤ 23) (hmi : mi ≤ 59) (hs : s ≤ 59) :
    parse_date_value (.str (fmtIsoT y m d h mi s)) = some ⟨y, m, d⟩ := by
  rw [parse_str_textual (by simp [fmtIsoT, fmtIso, pad4])
    (strip_fmtIsoT y m d h mi s)
    (all_digits_false_of_mem
      (show '-' ∈ fmtIsoT y m d h mi s by simp [fmtIsoT, fmtIso])
      (by decide)), tryFormats_fmtIsoT hv hh hmi hs]

theorem roundtrip_fmtIsoTZ {y m d h mi s : Nat} (hv : validYMD y m d)
    (hh : h ≤ 23) (hmi : mi ≤ 59) (hs : s ≤ 59) :
    parse_date_value (.str (fmtIsoTZ y m d h mi s)) = some ⟨y, m, d⟩ := by
  rw [parse_str_textual (by simp [fmtIsoTZ, fmtIsoT, fmtIso, pad4])
    (strip_fmtIsoTZ y m d h mi s)
    (all_digits_false_of_mem
      (show '-' ∈ fmtIsoTZ y m d h mi s by simp [fmtIsoTZ, fmtIsoT, fmtIso])
      (by decide)), tryFormats_fmtIsoTZ hv hh hmi hs]

theorem stripC_of_all {l : List Char} (h : ∀ c ∈ l, isSpaceC c = false) :
    stripC l = l :=
  stripC_eq_self
    (fun c hc => h c (List.mem_of_mem_head? (by simp [hc])))
    (fun c hc => h c (List.mem_of_mem_getLast? (by simp [hc])))

theorem stripC_digits {l : List Char} (h : l.all isDigitC = true) :
    stripC l = l :=
  stripC_of_all fun c hc => isSpaceC_of_digit (List.all_eq_true.mp h c hc)

theorem natCharsAux_spec :
    ∀ fuel n, n < fuel →
      natCharsAux fuel n ≠ [] ∧ (natCharsAux fuel n).all isDigitC = true ∧
        toNatC (natCharsAux fuel n) = n := by
  intro fuel
  induction fuel with
  | zero => intro n hn; omega
  | succ f ih =>
    intro n hn
    rw [natCharsAux]
    by_cases h10 : n < 10
    · rw [if_pos h10]
      refine ⟨by simp, ?_, ?_⟩
      · simp [isDigitC_d2c h10]
      · rw [toNatC_singleton, c2d_d2c h10]
    · rw [if_neg h10]
      have hrec : n / 10 < f := by omega
      obtain ⟨h1, h2, h3⟩ := ih (n / 10) hrec
      refine ⟨by simp, ?_, ?_⟩
      · rw [List.all_append, h2]
        simp [isDigitC_d2c (Nat.mod_lt n (by omega))]
      · rw [toNatC_append_last, h3, c2d_d2c (Nat.mod_lt n (by omega))]
        omega

theorem natChars_spec (n : Nat) :
    natChars n ≠ [] ∧ (natChars n).all isDigitC = true ∧
      toNatC (natChars n) = n :=
  natCharsAux_spec (n + 1) n (by omega)

theorem isoShape_dash_mem {l : List Char} (h : isoShapeAt l = true) :
    '-' ∈ l := by
  unfold isoShapeAt at h
  split at h
  · rename_i a b c d e f g h8 i j rest
    simp only [Bool.and_eq_true, decide_eq_true_eq] at h
    obtain ⟨⟨⟨⟨⟨⟨⟨⟨⟨_, _⟩, _⟩, _⟩, he⟩, _⟩, _⟩, h8e⟩, _⟩, _⟩ := h
    subst he
    simp
  · cases h

theorem isoShape_head_digit {c : Char} {rest : List Char}
    (h : isoShapeAt (c :: rest) = true) : isDigitC c = true := by
  unfold isoShapeAt at h
  split at h
  · rename_i a b cc d e f g h8 i j tail heq
    simp only [Bool.and_eq_true, decide_eq_true_eq] at h
    obtain ⟨⟨⟨⟨⟨⟨⟨⟨⟨ha, _⟩, _⟩, _⟩, _⟩, _⟩, _⟩, _⟩, _⟩, _⟩ := h
    cases heq
    exact ha
  · cases h

theorem regexFallback_all_digits :
    ∀ l : List Char, (∀ c ∈ l, isDigitC c = true) → isoRegexFallback l = none := by
  intro l
  induction l with
  | nil => intro _; rfl
  | cons c rest ih =>
    intro h
    rw [isoRegexFallback]
    have hsh : isoShapeAt (c :: rest) = false := by
      rw [Bool.eq_false_iff]
      intro hs
      have hd := isoShape_dash_mem hs
      have := h '-' hd
      cases this
    rw [hsh]
    simp only [Bool.false_eq_true, if_false]
    exact ih fun x hx => h x (List.mem_cons_of_mem c hx)

theorem tryFormats_all_digits {l : List Char}
    (hdig : l.all isDigitC = true) : tryFormats l = none := by
  have hmem : ∀ c ∈ l, isDigitC c = true := List.all_eq_true.mp hdig
  have hno : ∀ x : Char, isDigitC x = false → x ∉ l := by
    intro x hx hm
    rw [hmem x hm] at hx
    cases hx
  rw [tryFormats, pYMD_single (hno '-' (by decide)),
    pDMY_single (hno '/' (by decide)), pDMY_single (hno '-' (by decide)),
    pDateTime_single (hno ' ' (by decide)),
    pDateTime_single (hno ' ' (by decide)),
    pDateTime_single (hno 'T' (by decide))]
  rw [show pYMDTZ l = none by
    rw [pYMDTZ]
    split
    · rename_i rest heq
      have : 'Z' ∈ l := by
        rw [← List.mem_reverse, heq]
        simp
      have := hmem 'Z' this
      cases this
    · rfl]
  exact regexFallback_all_digits l hmem

theorem tryFormats_dash_digits {ds : List Char}
    (hdig : ds.all isDigitC = true) : tryFormats ('-' :: ds) = none := by
  have hmem : ∀ c ∈ ds, isDigitC c = true := List.all_eq_true.mp hdig
  have hnods : ∀ x : Char, isDigitC x = false → x ∉ ds := by
    intro x hx hm
    rw [hmem x hm] at hx
    cases hx
  have hnol : ∀ x : Char, isDigitC x = false → x ≠ '-' → x ∉ '-' :: ds := by
    intro x hx hd hm
    rcases List.mem_cons.mp hm with hm | hm
    · exact hd hm
    · exact hnods x hx hm
  rw [tryFormats]
  rw [show pYMD ('-' :: ds) = none by
    rw [pYMD, splitOnC_cons_sep, splitOnC_not_mem (hnods '-' (by decide))]]
  rw [pDMY_single (hnol '/' (by decide) (by decide))]
  rw [show pDMY '-' ('-' :: ds) = none by
    rw [pDMY, splitOnC_cons_sep, splitOnC_not_mem (hnods '-' (by decide))]]
  rw [pDateTime_single (hnol ' ' (by decide) (by decide)),
    pDateTime_single (hnol ' ' (by decide) (by decide)),
    pDateTime_single (hnol 'T' (by decide) (by decide))]
  rw [show pYMDTZ ('-' :: ds) = none by
    rw [pYMDTZ]
    split
    · rename_i rest heq
      have : 'Z' ∈ '-' :: ds := by
        rw [← List.mem_reverse, heq]
        simp
      rcases List.mem_cons.mp this with hm | hm
      · cases hm
      · have := hmem 'Z' hm
        cases this
    · rfl]
  show isoRegexFallback ('-' :: ds) = none
  rw [isoRegexFallback]
  have hsh : isoShapeAt ('-' :: ds) = false := by
    rw [Bool.eq_false_iff]
    intro hs
    have := isoShape_head_digit hs
    cases this
  rw [hsh]
  simp only [Bool.false_eq_true, if_false]
  exact regexFallback_all_digits ds hmem


theorem parseDateText_digits {l : List Char} (hne : l ≠ [])
    (hdig : l.all isDigitC = true) :
    parseDateText l = fromtimestampDate (timestampThresh (pfOfInt (toNatC l))) := by
  rw [parseDateText, stripC_digits hdig]
  simp only [List.isEmpty_eq_true, hne, if_false, hdig, if_true, timestampThresh]
  cases hX : fromtimestampDate
      (if pfGtTenBillion (pfOfInt (toNatC l)) then
        pfDivThousand (pfOfInt (toNatC l)) else pfOfInt (toNatC l)) with
  | none => simp [tryFormats_all_digits hdig]
  | some d => simp

theorem parse_int_timestamp {v : Int} (hv : v ≠ 0) :
    parse_date_value (.int v) = fromtimestampDate (timestampThresh (pfOfInt v)) := by
  rw [parse_date_value]
  have ht : pyTruthy (.int v) = true := by simp [pyTruthy, hv]
  rw [ht]
  simp only [Bool.true_eq_false, if_false]
  rw [parseDateNumeric, timestampThresh]
  cases hX : fromtimestampDate
      (if pfGtTenBillion (pfOfInt v) then pfDivThousand (pfOfInt v)
        else pfOfInt v) with
  | some d => simp
  | none =>
    simp only
    show parseDateText (pyStr (.int v)) = none
    rcases lt_trichotomy v 0 with hneg | hzero | hpos
    · show parseDateText (intChars v) = none
      rw [intChars, if_pos hneg]
      obtain ⟨hne2, hdig2, _⟩ := natChars_spec (-v).toNat
      have hstrip : stripC ('-' :: natChars (-v).toNat) = '-' :: natChars (-v).toNat := by
        refine stripC_of_all ?_
        intro c hc
        rcases List.mem_cons.mp hc with rfl | hc
        · decide
        · exact isSpaceC_of_digit (List.all_eq_true.mp hdig2 c hc)
      rw [parseDateText, hstrip]
      have hnotall : ('-' :: natChars (-v).toNat).all isDigitC = false := by
        rw [List.all_cons, show isDigitC '-' = false by decide]
        rfl
      simp only [List.isEmpty_cons, if_false, Bool.false_eq_true, hnotall]
      exact tryFormats_dash_digits hdig2
    · exact absurd hzero hv
    · show parseDateText (intChars v) = none
      rw [intChars, if_neg (by omega)]
      obtain ⟨hne2, hdig2, htn⟩ := natChars_spec v.toNat
      rw [parseDateText_digits hne2 hdig2, htn]
      rw [show ((v.toNat : Int)) = v from Int.toNat_of_nonneg (by omega)]
      rw [← timestampThresh] at hX
      exact hX

theorem parse_str_digits {s : List Char} (hne : s ≠ [])
    (hdig : s.all isDigitC = true) :
    parse_date_value (.str s)
      = fromtimestampDate (timestampThresh (pfOfInt (toNatC s))) := by
  rw [parse_date_value]
  have ht : pyTruthy (.str s) = true := by simp [pyTruthy, hne]
  rw [ht]
  simp only [Bool.true_eq_false, if_false]
  exact parseDateText_digits hne hdig

theorem parse_float_timestamp {f : PFloat} (hf : f.num ≠ 0)
    (hsome : (fromtimestampDate (timestampThresh f)).isSome = true) :
    parse_date_value (.float f) = fromtimestampDate (timestampThresh f) := by
  rw [parse_date_value]
  have ht : pyTruthy (.float f) = true := by simp [pyTruthy, hf]
  rw [ht]
  simp only [Bool.true_eq_false, if_false]
  rw [parseDateNumeric]
  cases hX : fromtimestampDate (timestampThresh f) with
  | some d => simp
  | none => rw [hX] at hsome; cases hsome

theorem parseDateTextExc_ok {raw : List Char} {o : Option PyDate}
    (h : parseDateTextExc raw = .ok o) : parseDateText raw = o := by
  simp only [parseDateTextExc] at h
  simp only [parseDateText]
  split at h
  · rename_i hcond
    rw [if_pos hcond]
    exact Except.ok.inj h
  · rename_i hcond
    rw [if_neg hcond]
    split at h
    · rename_i hd
      rw [if_pos hd]
      split at h
      · cases h
      · split at h
        · exact Except.ok.inj h
        · exact Except.ok.inj h
    · rename_i hd
      rw [if_neg hd]
      exact Except.ok.inj h

theorem parseDateNumericExc_ok {q : PFloat} {sv : List Char}
    {o : Option PyDate} (h : parseDateNumericExc q sv = .ok o) :
    parseDateNumeric q sv = o := by
  simp only [parseDateNumericExc] at h
  simp only [parseDateNumeric]
  split at h
  · cases h
  · split at h
    · exact Except.ok.inj h
    · exact parseDateTextExc_ok h

theorem parse_date_value_exc_ok {v : PyValue} {o : Option PyDate}
    (h : parse_date_value_exc v = .ok o) : parse_date_value v = o := by
  simp only [parse_date_value_exc] at h
  simp only [parse_date_value]
  split at h
  · rename_i hcond
    rw [if_pos hcond]
    exact Except.ok.inj h
  · rename_i hcond
    rw [if_neg hcond]
    cases v with
    | none => exact Except.ok.inj h
    | datetime d => exact Except.ok.inj h
    | int n => exact parseDateNumericExc_ok h
    | float f => exact parseDateNumericExc_ok h
    | bool b => exact parseDateNumericExc_ok h
    | str s => exact parseDateTextExc_ok h

theorem stripC_all_space {s : List Char} (hws : s.all isSpaceC = true) :
    stripC s = [] := by
  have h1 : s.dropWhile isSpaceC = [] := by
    rw [List.dropWhile_eq_nil_iff]
    exact fun x hx => List.all_eq_true.mp hws x hx
  rw [stripC, h1]
  rfl

theorem parse_ws_none {s : List Char} (hne : s ≠ [])
    (hws : s.all isSpaceC = true) : parse_date_value (.str s) = none := by
  rw [parse_date_value]
  have ht : pyTruthy (.str s) = true := by simp [pyTruthy, hne]
  rw [ht]
  simp only [Bool.true_eq_false, if_false]
  rw [parseDateText, stripC_all_space hws]
  rfl

theorem format_ws_id {s : List Char} (hne : s ≠ [])
    (hws : s.all isSpaceC = true) : format_date_french (.str s) = s := by
  rw [format_date_french]
  have ht : pyTruthy (.str s) = true := by simp [pyTruthy, hne]
  rw [ht]
  simp only [Bool.true_eq_false, if_false]
  rw [parse_ws_none hne hws]
  have hdash : ('-' ∈ s) = False := by
    simp only [eq_iff_iff, iff_false]
    intro hm
    have := List.all_eq_true.mp hws '-' hm
    cases this
  simp [hdash]

/-! ### Concrete fixtures used by counterexamples and witnesses -/

/-- A record with a non-empty dossier identifier. -/
def recA : GristRecord := ⟨1, [("dossier_id".toList, .str "42".toList)]⟩

/-- A second record with a non-empty dossier identifier. -/
def recB : GristRecord := ⟨2, [("dossier_id".toList, .str "43".toList)]⟩

/-- A record already marked as successfully synchronised. -/
def recSucc : GristRecord :=
  ⟨9, [("dossier_id".toList, .str "7".toList),
       ("sync_mail".toList, .str "success".toList)]⟩

/-- A raised exception used to probe the dispatch loop. -/
def exnBoom : PyExn := ⟨"boom".toList⟩

/-- A record with one non-empty text field, for the filter-composition
scenario. -/
def recTF : GristRecord := ⟨1, [("a".toList, .str "x".toList)]⟩

/-- Two filters that evaluate to `[true, false]` on `recTF`. -/
def fsTF : List FilterSpec :=
  [⟨"a".toList, "not_empty".toList, []⟩, ⟨"a".toList, "empty".toList, []⟩]

/-- A minimal run environment (collaborator always succeeds). -/
def env0 : SenderEnv :=
  ⟨false, [], [], "inst".toList, "2024-01-01T00:00:00".toList,
    fun _ _ _ _ => .success⟩

/-- The sixteen operator names recognised by `check_date_filter` and
`test_filter`. -/
def knownOperators : List (List Char) :=
  ["date_before".toList, "date_after".toList, "date_on".toList,
   "date_between".toList, "empty".toList, "not_empty".toList,
   "equals".toList, "not_equals".toList, "contains".toList,
   "not_contains".toList, "starts_with".toList, "ends_with".toList,
   "greater_than".toList, "less_than".toList, "greater_equal".toList,
   "less_equal".toList]

/-! ### Aggregation behaviour of the dispatch loop -/

/-- Does a per-record result dictionary count as an error in `send_batch`
(`result.get('success')` falsy)? -/
def isErrRes : SendRes → Bool
  | .err _ => true
  | _ => false

/-- The detail entry appended for a failed record (lines 721-724). -/
def errDetail (r : GristRecord) : SendRes → Option (PyValue × List Char)
  | .err m =>
    some (dictGetD r.fields "dossier_id".toList (.str "N/A".toList), m)
  | _ => none

theorem sendBatchGo_spec (f : GristRecord → SendRes) :
    ∀ (records : List GristRecord) (acc : BatchResults),
      sendBatchGo (fun r => .ok (f r)) records acc =
        .ok ⟨acc.total_records,
          acc.success_count + records.countP (fun r => !isErrRes (f r)),
          acc.error_count + records.countP (fun r => isErrRes (f r)),
          acc.details ++ records.filterMap (fun r => errDetail r (f r))⟩ := by
  intro records
  induction records with
  | nil =>
    intro acc
    simp [sendBatchGo]
  | cons r rest ih =>
    intro acc
    rw [sendBatchGo]
    simp only
    rw [ih]
    cases hfr : f r with
    | ok =>
      simp [recordStep, hfr, isErrRes, errDetail, List.countP_cons,
        List.filterMap_cons]
      all_goals omega
    | okDry =>
      simp [recordStep, hfr, isErrRes, errDetail, List.countP_cons,
        List.filterMap_cons]
      all_goals omega
    | err m =>
      simp [recordStep, hfr, isErrRes, errDetail, List.countP_cons,
        List.filterMap_cons]
      all_goals omega

theorem mem_apply_filters_and (records : List GristRecord)
    (fs : List FilterSpec) (r : GristRecord) :
    r ∈ apply_filters records fs "AND".toList ↔
      r ∈ records ∧ ∀ fc ∈ fs, evalOneFilter fc r.fields = true := by
  rw [apply_filters]
  cases hfs : fs.isEmpty with
  | true =>
    rw [List.isEmpty_iff] at hfs
    subst hfs
    simp
  | false =>
    simp only [Bool.false_eq_true, if_false, List.mem_filter]
    rw [if_neg (show ¬("AND".toList = "OR".toList) by decide)]
    simp [List.all_eq_true]

theorem mem_apply_filters_or (records : List GristRecord)
    (fs : List FilterSpec) (r : GristRecord) (h : fs ≠ []) :
    r ∈ apply_filters records fs "OR".toList ↔
      r ∈ records ∧ ∃ fc ∈ fs, evalOneFilter fc r.fields = true := by
  rw [apply_filters]
  have hfs : fs.isEmpty = false := by
    cases fs
    · exact absurd rfl h
    · rfl
  rw [hfs]
  simp only [Bool.false_eq_true, if_false, List.mem_filter, if_pos rfl]
  simp [List.any_eq_true]

theorem get_records_eq (records : List GristRecord) (fs : List FilterSpec)
    (logic : List Char) (force : Bool) :
    get_records_to_process records fs logic force =
      (apply_filters records fs logic).filter (fun record =>
        pyTruthy (dictGetD record.fields "dossier_id".toList (.str [])) &&
          (force || !pyEqStrV
            (dictGetD record.fields "sync_mail".toList (.str []))
            "success".toList)) := by
  rw [get_records_to_process, apply_filters]
  cases hfs : fs.isEmpty <;> simp [hfs, apply_filters]

/-! ### Claims -/

/-- C1 counterexample: the claim says an unrecognized operator evaluates
true "regardless of whether the name starts with the `date_` prefix", but
the dispatch in `apply_filters` routes every `date_`-prefixed name to
`check_date_filter`, which returns false for a non-empty operand when no
date branch matches (here the unrecognized operator `date_maybe` with
operand `x` on an unparseable field value evaluates false, not true). -/
theorem c1_counterexample :
    evalOneFilter ⟨"f".toList, "date_maybe".toList, "x".toList⟩
      [("f".toList, .str "abc".toList)] = false := by
  decide

/-- C1 (amended): a filter predicate whose operator is none of the sixteen
recognised names evaluates true when the name does not start with `date_`
(regardless of operand and field value); when the name does start with
`date_` it evaluates true exactly when the comparison operand is empty,
false otherwise. -/
theorem c1_unknown_operator (fields : Fields) (column op value : List Char)
    (hno : op ∉ knownOperators) :
    (prefixOfL "date_".toList op = false →
      evalOneFilter ⟨column, op, value⟩ fields = true) ∧
    (prefixOfL "date_".toList op = true →
      evalOneFilter ⟨column, op, value⟩ fields = value.isEmpty) := by
  have hne : ∀ x ∈ knownOperators, op ≠ x := fun x hx he => hno (he ▸ hx)
  have hdb : op ≠ "date_before".toList := hne _ (by simp [knownOperators])
  have hda : op ≠ "date_after".toList := hne _ (by simp [knownOperators])
  have hdo : op ≠ "date_on".toList := hne _ (by simp [knownOperators])
  have hdw : op ≠ "date_between".toList := hne _ (by simp [knownOperators])
  have hem : op ≠ "empty".toList := hne _ (by simp [knownOperators])
  have hnm : op ≠ "not_empty".toList := hne _ (by simp [knownOperators])
  have heq : op ≠ "equals".toList := hne _ (by simp [knownOperators])
  have hnq : op ≠ "not_equals".toList := hne _ (by simp [knownOperators])
  have hco : op ≠ "contains".toList := hne _ (by simp [knownOperators])
  have hnc : op ≠ "not_contains".toList := hne _ (by simp [knownOperators])
  have hsw : op ≠ "starts_with".toList := hne _ (by simp [knownOperators])
  have hew : op ≠ "ends_with".toList := hne _ (by simp [knownOperators])
  have hgt : op ≠ "greater_than".toList := hne _ (by simp [knownOperators])
  have hlt : op ≠ "less_than".toList := hne _ (by simp [knownOperators])
  have hge : op ≠ "greater_equal".toList := hne _ (by simp [knownOperators])
  have hle : op ≠ "less_equal".toList := hne _ (by simp [knownOperators])
  simp only [String.toList] at hdb hda hdo hdw hem hnm heq hnq
  simp only [String.toList] at hco hnc hsw hew hgt hlt hge hle
  constructor
  · intro hp
    rw [evalOneFilter]
    simp only [hp, Bool.false_eq_true, if_false]
    rw [test_filter]
    simp [hem, hnm, heq, hnq, hco, hnc, hsw, hew, hgt, hlt, hge, hle]
  · intro hp
    rw [evalOneFilter]
    simp only [hp, if_true]
    rw [check_date_filter]
    cases hv : value.isEmpty with
    | true => simp [hv]
    | false =>
      simp only [hv, Bool.false_eq_true, if_false]
      cases parse_date_value (dictGetD fields column .none) with
      | none => rfl
      | some fd => simp [hdb, hda, hdo, hdw]

/-- C1 witness: the unrecognized non-date operator `frobnicate` evaluates
true on a concrete record. -/
theorem c1_witness :
    evalOneFilter ⟨"f".toList, "frobnicate".toList, "x".toList⟩
      [("f".toList, .str "abc".toList)] = true :=
  (c1_unknown_operator [("f".toList, .str "abc".toList)] "f".toList
    "frobnicate".toList "x".toList (by decide)).1 (by decide)

/-- C2 counterexample: the `send_batch` dispatch loop (lines 696-724)
contains no `try`/`except`, so a per-record processor that raises makes
the whole loop return the exception instead of an aggregate whose error
count covers the records: with two records and a processor that raises on
every record, the run terminates with the exception and nothing is
captured into the error count or detail list. (Concretely, rendering can
raise in `format_message_with_dates` — e.g. a non-string
`message_subject` makes `template.replace` raise `AttributeError` — and
no handler between there and `main` is per-record.) -/
theorem c2_counterexample :
    send_batch_loop (fun _ => .error exnBoom) [recA, recB]
      = .error exnBoom := rfl

/-- C2 (amended): per-record errors that the collaborators report as
error values are captured into the error count and ordered detail list
and the loop proceeds through every record; but an exception raised
inside per-record processing propagates out of the loop and terminates
the run (only the collaborator clients catch their own exceptions). -/
theorem c2_error_isolation :
    (∀ (f : GristRecord → SendRes) (records : List GristRecord),
      send_batch_loop (fun r => .ok (f r)) records =
        .ok ⟨records.length,
          records.countP (fun r => !isErrRes (f r)),
          records.countP (fun r => isErrRes (f r)),
          records.filterMap (fun r => errDetail r (f r))⟩) ∧
    (∀ (e : PyExn) (r : GristRecord) (rs : List GristRecord),
      send_batch_loop (fun _ => .error e) (r :: rs) = .error e) := by
  constructor
  · intro f records
    rw [send_batch_loop, sendBatchGo_spec]
    simp
  · intro e r rs
    rw [send_batch_loop, sendBatchGo]

/-- C3 counterexample: the claim says an unparseable side is substituted
by zero, but `float(field_value or 0)` only substitutes zero for a falsy
side; a truthy unparseable string raises `ValueError` and the predicate
returns false. Here `"abc" >= "0"` would be `0 >= 0 = true` under the
claim, yet the code returns false — while a genuinely zero field value
returns true. -/
theorem c3_counterexample :
    test_filter (.str "abc".toList) "greater_equal".toList "0".toList = false ∧
    test_filter (.int 0) "greater_equal".toList "0".toList = true := by
  decide

/-- C3 (amended): for a non-empty operand, the numeric operators
substitute zero only for a falsy (absent/empty/zero/false) field value;
when both sides convert to doubles the IEEE-754 double comparison is
returned (NaN comparing false with everything, infinities ordered as
usual); a truthy field value that `float()` cannot parse — or an operand
that cannot parse — makes the predicate false. The hypothesis excludes
the `int`-beyond-double-range inputs on which the real `float()` raises
an uncaught `OverflowError`. -/
theorem c3_numeric_coercion (fv : PyValue) (v : List Char) (hvne : v ≠ [])
    (hnr : floatConvRaises (pyOrZero fv) = false) :
    (∀ a b, pyFloat64V (pyOrZero fv) = some a → parseFloatL v = some b →
      test_filter fv "greater_than".toList v = f64Lt b a ∧
      test_filter fv "less_than".toList v = f64Lt a b ∧
      test_filter fv "greater_equal".toList v = f64Le b a ∧
      test_filter fv "less_equal".toList v = f64Le a b) ∧
    (pyTruthy fv = false →
      pyFloat64V (pyOrZero fv) = some (.finite ⟨0, 1⟩)) ∧
    (pyTruthy fv = true → pyFloat64V fv = none →
      test_filter fv "greater_than".toList v = false ∧
      test_filter fv "less_than".toList v = false ∧
      test_filter fv "greater_equal".toList v = false ∧
      test_filter fv "less_equal".toList v = false) ∧
    (parseFloatL v = none →
      test_filter fv "greater_than".toList v = false ∧
      test_filter fv "less_than".toList v = false ∧
      test_filter fv "greater_equal".toList v = false ∧
      test_filter fv "less_equal".toList v = false) := by
  refine ⟨?_, ?_, ?_, ?_⟩
  · intro a b ha hb
    refine ⟨?_, ?_, ?_, ?_⟩ <;>
      simp [test_filter, hvne, ha, hb]
  · intro ht
    rw [pyOrZero, ht]
    rfl
  · intro ht hnone
    have ho : pyFloat64V (pyOrZero fv) = none := by
      rw [pyOrZero, ht]
      simpa using hnone
    refine ⟨?_, ?_, ?_, ?_⟩ <;>
      simp [test_filter, hvne, ho]
  · intro hnone
    refine ⟨?_, ?_, ?_, ?_⟩ <;>
      (simp only [test_filter, hvne]
       cases pyFloat64V (pyOrZero fv) <;> simp [hnone, hvne])

/-- C3 witness: the amended behaviour at the counterexample's input — a
truthy unparseable field value makes all four numeric predicates false. -/
theorem c3_witness :
    test_filter (.str "abc".toList) "greater_than".toList "0".toList = false ∧
    test_filter (.str "abc".toList) "less_than".toList "0".toList = false ∧
    test_filter (.str "abc".toList) "greater_equal".toList "0".toList = false ∧
    test_filter (.str "abc".toList) "less_equal".toList "0".toList = false :=
  (c3_numeric_coercion (.str "abc".toList) "0".toList
    (by decide) (by decide)).2.2.1 (by decide) (by decide)

/-- C4 (confirmed): the selection gate of `get_records_to_process` never
lets through a record whose `dossier_id` field is absent or falsy, in any
mode including force-send; without force-send no selected record carries
`sync_mail = 'success'`; and with force-send every filter-passing record
with a truthy `dossier_id` is selected, whatever its `sync_mail`. -/
theorem c4_selection_gate (records : List GristRecord)
    (filters : List FilterSpec) (logic : List Char) (force : Bool)
    (r : GristRecord) :
    (r ∈ get_records_to_process records filters logic force →
      pyTruthy (dictGetD r.fields "dossier_id".toList (.str [])) = true) ∧
    (r ∈ get_records_to_process records filters logic false →
      pyEqStrV (dictGetD r.fields "sync_mail".toList (.str []))
        "success".toList = false) ∧
    (r ∈ apply_filters records filters logic →
      pyTruthy (dictGetD r.fields "dossier_id".toList (.str [])) = true →
      r ∈ get_records_to_process records filters logic true) := by
  refine ⟨?_, ?_, ?_⟩
  · intro hm
    rw [get_records_eq] at hm
    have := (List.mem_filter.mp hm).2
    simp only [Bool.and_eq_true] at this
    exact this.1
  · intro hm
    rw [get_records_eq] at hm
    have := (List.mem_filter.mp hm).2
    simp only [Bool.and_eq_true, Bool.or_eq_true, Bool.not_eq_true'] at this
    rcases this.2 with h | h
    · cases h
    · exact h
  · intro hm hd
    rw [get_records_eq]
    refine List.mem_filter.mpr ⟨hm, ?_⟩
    simp only [String.toList] at hd
    simp [hd]

/-- C4 witness: a record already marked `success` is selected under
force-send. -/
theorem c4_witness :
    recSucc ∈ get_records_to_process [recSucc] [] "AND".toList true :=
  (c4_selection_gate [recSucc] [] "AND".toList true recSucc).2.2
    (by decide) (by decide)

/-- C5 (confirmed): an empty filter list passes every record through
unchanged; with logic `AND` a record is kept iff every configured
predicate evaluates true on its fields; with logic `OR` (and at least one
filter) iff some predicate evaluates true; and on the concrete
predicate-result vector `[true, false]` AND excludes the record while OR
includes it. -/
theorem c5_filter_composition (records : List GristRecord)
    (fs : List FilterSpec) (r : GristRecord) :
    (∀ logic, apply_filters records [] logic = records) ∧
    (r ∈ apply_filters records fs "AND".toList ↔
      r ∈ records ∧ ∀ fc ∈ fs, evalOneFilter fc r.fields = true) ∧
    (fs ≠ [] →
      (r ∈ apply_filters records fs "OR".toList ↔
        r ∈ records ∧ ∃ fc ∈ fs, evalOneFilter fc r.fields = true)) ∧
    (fsTF.map fun fc => evalOneFilter fc recTF.fields) = [true, false] ∧
    apply_filters [recTF] fsTF "AND".toList = [] ∧
    apply_filters [recTF] fsTF "OR".toList = [recTF] := by
  refine ⟨?_, mem_apply_filters_and records fs r, mem_apply_filters_or
    records fs r, by decide, by decide, by decide⟩
  intro logic
  rfl

/-- C5 witness: the OR characterisation applied to the concrete record
and filter pair. -/
theorem c5_witness :
    recTF ∈ apply_filters [recTF] fsTF "OR".toList ↔
      recTF ∈ [recTF] ∧ ∃ fc ∈ fsTF, evalOneFilter fc recTF.fields = true :=
  (c5_filter_composition [recTF] fsTF recTF).2.2.1 (by decide)

theorem intChars_ne_nil (n : Int) : intChars n ≠ [] := by
  rw [intChars]
  split
  · simp
  · exact (natChars_spec n.toNat).1

theorem pyStr_ne_nil_of_truthy {v : PyValue} (h : pyTruthy v = true) :
    pyStr v ≠ [] := by
  cases v with
  | none => cases h
  | bool b =>
    cases b
    · cases h
    · simp [pyStr]
  | int n => exact intChars_ne_nil n
  | float f =>
    rw [pyStr, pfRepr]
    split
    · simp
    · simp
  | str s =>
    simp only [pyTruthy, Bool.not_eq_true', List.isEmpty_eq_false] at h
    exact h
  | datetime d =>
    simp [pyStr]

/-- C6 (confirmed): with the dry-run toggle set, dispatching a selected
record (truthy `dossier_id`) returns the dry-run success dictionary,
performs no send call and no write-back call, and leaves any store of
records unchanged. -/
theorem c6_dry_run (env : SenderEnv) (record : GristRecord)
    (store : List GristRecord)
    (hd : pyTruthy (dictGetD record.fields "dossier_id".toList (.str []))
      = true) :
    send_message_to_record { env with dry_run := true } record
      = ⟨.okDry, [], []⟩ ∧
    applyUpdates store
      (send_message_to_record { env with dry_run := true } record).updates
      = store := by
  have hne : pyStr (dictGetD record.fields "dossier_id".toList (.str []))
      ≠ [] := pyStr_ne_nil_of_truthy hd
  have hmain : send_message_to_record { env with dry_run := true } record
      = ⟨.okDry, [], []⟩ := by
    simp only [String.toList] at hne
    rw [send_message_to_record]
    simp [hne]
  exact ⟨hmain, by rw [hmain]; rfl⟩

/-- C6 witness: a concrete dry-run dispatch. -/
theorem c6_witness :
    send_message_to_record { env0 with dry_run := true } recA
      = ⟨.okDry, [], []⟩ ∧
    applyUpdates [recA]
      (send_message_to_record { env0 with dry_run := true } recA).updates
      = [recA] :=
  c6_dry_run env0 recA [recA] (by decide)

/-- C7 (confirmed): in non-dry-run mode, for a selected record (truthy
`dossier_id`), a successful collaborator response produces the success
result and writes back status `success` with empty error text; an error
response with message `m` produces the failure result and writes back
status `failure` with error text `m.take 500` — whose length is
`min 500 m.length`, so a message longer than 500 characters is stored as
exactly its first 500 characters. -/
theorem c7_outcome_truncation (env : SenderEnv) (record : GristRecord)
    (hd : pyTruthy (dictGetD record.fields "dossier_id".toList (.str []))
      = true) :
    ((∀ a b c d, env.sendMessage a b c d = .success) →
      (send_message_to_record { env with dry_run := false } record).result
        = .ok ∧
      (send_message_to_record { env with dry_run := false } record).updates
        = [(record.id, ⟨"success".toList, env.now, []⟩)]) ∧
    (∀ m, (∀ a b c d, env.sendMessage a b c d = .failure m) →
      (send_message_to_record { env with dry_run := false } record).result
        = .err m ∧
      (send_message_to_record { env with dry_run := false } record).updates
        = [(record.id, ⟨"failure".toList, env.now, m.take 500⟩)] ∧
      (m.take 500).length = min 500 m.length ∧
      (500 < m.length → (m.take 500).length = 500)) := by
  have hne : pyStr (dictGetD record.fields "dossier_id".toList (.str []))
      ≠ [] := pyStr_ne_nil_of_truthy hd
  simp only [String.toList] at hne
  constructor
  · intro hora
    rw [send_message_to_record]
    simp [hne, hora]
  · intro m hora
    rw [send_message_to_record]
    refine ⟨by simp [hne, hora], by simp [hne, hora], ?_, ?_⟩
    · exact List.length_take 500 m
    · intro hlong
      rw [List.length_take]
      omega

/-- The environment used by the C7 witness: non-dry-run with a
collaborator that always reports a 501-character error message. -/
def envFail : SenderEnv :=
  { env0 with
    dry_run := false
    sendMessage := fun _ _ _ _ => .failure (List.replicate 501 'x') }

/-- C7 witness: a 501-character collaborator error message is stored
truncated to exactly 500 characters. -/
theorem c7_witness :
    ((send_message_to_record envFail recA).result
        = .err (List.replicate 501 'x') ∧
      (send_message_to_record envFail recA).updates
        = [(recA.id, ⟨"failure".toList, envFail.now,
            (List.replicate 501 'x').take 500⟩)] ∧
      ((List.replicate 501 'x').take 500).length
        = min 500 (List.replicate 501 'x').length ∧
      (500 < (List.replicate 501 'x').length →
        ((List.replicate 501 'x').take 500).length = 500)) :=
  (c7_outcome_truncation envFail recA (by decide)).2
    (List.replicate 501 'x') (fun _ _ _ _ => rfl)

/-- C9 (confirmed): for every calendar date valid for Python `datetime`
(years 1..9999) and every valid time of day, rendering the date in each
of the seven supported textual formats (`YYYY-MM-DD`, `DD/MM/YYYY`,
`DD-MM-YYYY`, `YYYY-MM-DD HH:MM:SS`, `DD/MM/YYYY HH:MM:SS`,
`YYYY-MM-DDTHH:MM:SS`, `YYYY-MM-DDTHH:MM:SSZ`) and normalizing the
resulting string returns exactly that date. -/
theorem c9_roundtrip (y m d h mi s : Nat) (hv : validYMD y m d)
    (hh : h ≤ 23) (hmi : mi ≤ 59) (hs : s ≤ 59) :
    parse_date_value (.str (fmtIso y m d)) = some ⟨y, m, d⟩ ∧
    parse_date_value (.str (fmtFrSlash y m d)) = some ⟨y, m, d⟩ ∧
    parse_date_value (.str (fmtFrDash y m d)) = some ⟨y, m, d⟩ ∧
    parse_date_value (.str (fmtIsoSpace y m d h mi s)) = some ⟨y, m, d⟩ ∧
    parse_date_value (.str (fmtFrSlashTime y m d h mi s)) = some ⟨y, m, d⟩ ∧
    parse_date_value (.str (fmtIsoT y m d h mi s)) = some ⟨y, m, d⟩ ∧
    parse_date_value (.str (fmtIsoTZ y m d h mi s)) = some ⟨y, m, d⟩ :=
  ⟨roundtrip_fmtIso hv, roundtrip_fmtFrSlash hv, roundtrip_fmtFrDash hv,
   roundtrip_fmtIsoSpace hv hh hmi hs, roundtrip_fmtFrSlashTime hv hh hmi hs,
   roundtrip_fmtIsoT hv hh hmi hs, roundtrip_fmtIsoTZ hv hh hmi hs⟩

/-- C9 witness: the round trip at 2023-12-25 with time 14:30:59. -/
theorem c9_witness :
    parse_date_value (.str (fmtIso 2023 12 25)) = some ⟨2023, 12, 25⟩ ∧
    parse_date_value (.str (fmtFrSlash 2023 12 25)) = some ⟨2023, 12, 25⟩ ∧
    parse_date_value (.str (fmtFrDash 2023 12 25)) = some ⟨2023, 12, 25⟩ ∧
    parse_date_value (.str (fmtIsoSpace 2023 12 25 14 30 59))
      = some ⟨2023, 12, 25⟩ ∧
    parse_date_value (.str (fmtFrSlashTime 2023 12 25 14 30 59))
      = some ⟨2023, 12, 25⟩ ∧
    parse_date_value (.str (fmtIsoT 2023 12 25 14 30 59))
      = some ⟨2023, 12, 25⟩ ∧
    parse_date_value (.str (fmtIsoTZ 2023 12 25 14 30 59))
      = some ⟨2023, 12, 25⟩ :=
  c9_roundtrip 2023 12 25 14 30 59 (by decide) (by decide) (by decide)
    (by decide)

/-- C10 counterexample: a whitespace-only string is truthy in Python, so
`format_date_french` does not take the empty-string early return; the
normalizer still fails on it, no `-` is present, and the original string
is returned unchanged — not empty text as the claim states. -/
theorem c10_counterexample :
    format_date_french (.str [' ']) = [' '] ∧
    format_date_french (.str [' ']) ≠ [] := by
  refine ⟨by decide, by decide⟩

/-- C10 (amended): for a whitespace-only string the normalizer returns
`None` but the French formatter returns the string unchanged; for the
genuinely falsy inputs (`None`, empty string, numeric zero, boolean
false) the normalizer returns `None` and the formatter returns empty
text; in particular the Unix epoch timestamp 0 is treated as absent even
though 0 seconds converts to 1970-01-01. -/
theorem c10_falsy_inputs :
    (∀ s : List Char, s ≠ [] → s.all isSpaceC = true →
      parse_date_value (.str s) = none ∧ format_date_french (.str s) = s) ∧
    (parse_date_value .none = none ∧ parse_date_value (.str []) = none ∧
      parse_date_value (.int 0) = none ∧
      parse_date_value (.float ⟨0, 1⟩) = none ∧
      parse_date_value (.bool false) = none) ∧
    (format_date_french .none = [] ∧ format_date_french (.str []) = [] ∧
      format_date_french (.int 0) = [] ∧
      format_date_french (.float ⟨0, 1⟩) = [] ∧
      format_date_french (.bool false) = []) ∧
    fromtimestampDate (pfOfInt 0) = some ⟨1970, 1, 1⟩ := by
  refine ⟨fun s hne hws => ⟨parse_ws_none hne hws, format_ws_id hne hws⟩,
    ⟨rfl, rfl, rfl, rfl, rfl⟩, ⟨rfl, rfl, rfl, rfl, rfl⟩, by decide⟩

/-- C10 witness: the whitespace clause at the single-space string. -/
theorem c10_witness :
    parse_date_value (.str [' ']) = none ∧
    format_date_french (.str [' ']) = [' '] :=
  c10_falsy_inputs.1 [' '] (by decide) (by decide)
